import Mathlib

/-!
Verification development for the Post-File-Generator merge pipeline
(source: src/app.py).  The Python source is shallowly embedded: pandas
DataFrames become column-major tables of optional string cells, the
pincode regular expressions become explicit scanning functions over
character lists, and the pandas str.contains regex matching used for
sender resolution becomes a small backtracking-free matcher for the
pattern subset of literals, dot and quantified atoms; patterns outside
that subset funnel into the per-file error path, so theorems that
quantify over sender matching restrict to metacharacter-free keys,
where the matcher provably equals case-insensitive substring search.
All definitions are executable so that concrete runs evaluate inside
the kernel.
-/

namespace App

/-- A pandas cell: missing (NaN/None), a string, or an integer.
Input files are read with dtype=str, so their cells are strings or NaN;
integer cells arise from the SL sequence and from the sender workbook,
which is read without dtype=str. -/
inductive Cell where
  | na : Cell
  | str : String → Cell
  | int : Nat → Cell
  deriving DecidableEq

/-- Python str() as applied by pandas astype(str): NaN prints as "nan". -/
def cellStr : Cell → String
  | Cell.na => "nan"
  | Cell.str s => s
  | Cell.int n => toString n

/-- pd.isna on a cell. -/
def cellIsNa : Cell → Bool
  | Cell.na => true
  | _ => false

/-- pandas fillna('') : missing cells become the empty string. -/
def fillna : Cell → Cell
  | Cell.na => Cell.str ""
  | c => c

/-- Python truthiness of a cell value (used in `if not row[col]`). -/
def cellTruthy : Cell → Bool
  | Cell.na => true
  | Cell.str s => s ≠ ""
  | Cell.int n => n ≠ 0

/-! ### Character-level string helpers

Lean's String library functions do not reduce inside the kernel, so the
Python string operations used by the source are embedded as structural
functions over character lists. -/

/-- The characters Python str.strip and the regex class backslash-s treat
as whitespace (ASCII range). -/
def isPySpace (c : Char) : Bool :=
  c = ' ' || c = '\t' || c = '\n' || c = '\r' || c = '\x0b' || c = '\x0c'

/-- Python word character for regex word boundaries (ASCII). -/
def isWordChar (c : Char) : Bool :=
  c.isAlphanum || c = '_'

/-- Python str.strip on a character list. -/
def pyStripList (cs : List Char) : List Char :=
  ((cs.dropWhile isPySpace).reverse.dropWhile isPySpace).reverse

/-- Python str.strip on a string. -/
def pyStrip (s : String) : String :=
  (pyStripList s.data).asString

/-- Python str.lower (ASCII). -/
def pyLower (s : String) : String :=
  (s.data.map Char.toLower).asString

/-- Python str.upper (ASCII). -/
def pyUpper (s : String) : String :=
  (s.data.map Char.toUpper).asString

/-- Boolean prefix test on character lists. -/
def isPrefixCh : List Char → List Char → Bool
  | [], _ => true
  | _ :: _, [] => false
  | a :: as, b :: bs => a = b && isPrefixCh as bs

/-- Boolean substring test on character lists (Python `in`). -/
def containsCh : List Char → List Char → Bool
  | needle, [] => needle.isEmpty
  | needle, c :: cs => isPrefixCh needle (c :: cs) || containsCh needle cs

/-- Python `needle in hay` on strings. -/
def strContainsSub (needle hay : String) : Bool :=
  containsCh needle.data hay.data

/-- Python str.endswith. -/
def pyEndsWith (s suffix : String) : Bool :=
  isPrefixCh suffix.data.reverse s.data.reverse

/-- Split a character list at every occurrence of the literal "Or"
(Python possible_names.split('Or')); the accumulator holds the current
piece reversed. -/
def splitOnOrAux : List Char → List Char → List (List Char)
  | 'O' :: 'r' :: rest, acc => acc.reverse :: splitOnOrAux rest []
  | c :: rest, acc => splitOnOrAux rest (c :: acc)
  | [], acc => [acc.reverse]

/-- Python s.split('Or') on a string. -/
def splitOnOr (s : String) : List String :=
  (splitOnOrAux s.data []).map List.asString

/-- Join string pieces with a separator (Python sep.join). -/
def joinWith (sep : List Char) : List (List Char) → List Char
  | [] => []
  | [x] => x
  | x :: y :: rest => x ++ sep ++ joinWith sep (y :: rest)

/-! ### PincodeNormalizer: clean_pincode and extract_pincode_from_text
(src/app.py lines 27-60) -/

/-- clean_pincode: None/NaN yields ''; otherwise str(x).strip() has all
non-digits removed (re.sub backslash-D) and the digit string is returned
only when it has exactly 6 digits. -/
def clean_pincode (pincode : Cell) : String :=
  if cellIsNa pincode then ""
  else
    let ds := (pyStripList (cellStr pincode).data).filter Char.isDigit
    if ds.length = 6 then ds.asString else ""

/-- There are k characters at the front of l and they are all digits. -/
def digitRun (l : List Char) (k : Nat) : Bool :=
  decide ((l.take k).length = k) && (l.take k).all Char.isDigit

/-- Word-boundary condition after the first k characters of l: either the
list ends there or the next character is not a word character. -/
def tailBoundary (l : List Char) (k : Nat) : Bool :=
  match l.drop k with
  | [] => true
  | c :: _ => !isWordChar c

/-- The regex backslash-b d{6} backslash-b matches at the current
position, where pw says whether the previous character (if any) was a
word character. -/
def stand6Here (pw : Bool) (l : List Char) : Bool :=
  !pw && digitRun l 6 && tailBoundary l 6

/-- re.search for backslash-b d{6} backslash-b: scan positions left to
right, returning the first match. -/
def search6 : Bool → List Char → Option (List Char)
  | _, [] => none
  | pw, c :: cs =>
    if stand6Here pw (c :: cs) then some ((c :: cs).take 6)
    else search6 (isWordChar c) cs

/-- One attempt of the regex backslash-b d{3}[sep-class-or-hyphen]? d{3}
backslash-b at the current position; the optional separator is greedy, so
the branch with a separator is tried first, exactly as the Python regex
engine does. -/
def sepHere (pw : Bool) (l : List Char) : Option (List Char) :=
  if pw then none
  else if digitRun l 3 then
    match l.drop 3 with
    | s :: rest =>
      if (isPySpace s || s = '-') && digitRun rest 3 && tailBoundary rest 3 then
        some (l.take 3 ++ s :: rest.take 3)
      else if digitRun l 6 && tailBoundary l 6 then some (l.take 6)
      else none
    | [] => none
  else none

/-- re.search for the 3+3 pattern with optional whitespace-or-hyphen
separator: first matching position wins. -/
def searchSep : Bool → List Char → Option (List Char)
  | _, [] => none
  | pw, c :: cs =>
    match sepHere pw (c :: cs) with
    | some m => some m
    | none => searchSep (isWordChar c) cs

/-- extract_pincode_from_text: missing input yields ''; otherwise the
first standalone 6-digit run; otherwise the first 3-separator-3 match
with ' ' and '-' removed from the matched text (str.replace of a single
character is character filtering); otherwise ''. -/
def extract_pincode_from_text (text : Cell) : String :=
  if cellIsNa text then ""
  else
    let cs := (cellStr text).data
    match search6 false cs with
    | some m => m.asString
    | none =>
      match searchSep false cs with
      | some m => ((m.filter (fun c => c ≠ ' ')).filter (fun c => c ≠ '-')).asString
      | none => ""

/-! ### A small regex matcher for pandas str.contains

src/app.py line 241 calls sender_details['File Name Contain']
.str.contains(base_filename, na=False, case=False).  pandas str.contains
treats the needle as a regular expression (regex=True is the default),
matched with re.IGNORECASE because of case=False.  The truncated
filename is used verbatim as the pattern, so metacharacters in filenames
change the matching semantics.  We embed re.search for the pattern
subset of literals and '.'-atoms with optional postfix *, + or ?
quantifiers.  A quantifier with nothing to repeat (leading or doubled)
parses to none, as Python raises re.error there.  Patterns holding any
other metacharacter (character classes, braces, anchors, alternation,
backslash escapes, parentheses) are outside the modelled subset and
also parse to none, funnelling into the per-file error path; the
program itself matches some of those patterns (e.g. balanced groups or
classes) and errors on others, so theorems that reason about sender
matching for arbitrary inputs restrict themselves to metacharacter-free
keys, where the matcher below provably coincides with case-insensitive
substring search (reSearch_lits / strContainsRe_lits). -/

/-- A regex atom: a literal character or the '.' wildcard. -/
inductive RAtom where
  | lit : Char → RAtom
  | dot : RAtom
  deriving DecidableEq

/-- A regex token: an atom, possibly quantified. -/
inductive RTok where
  | one : RAtom → RTok
  | star : RAtom → RTok
  | plus : RAtom → RTok
  | opt : RAtom → RTok
  deriving DecidableEq

/-- Characters this embedding does not support as pattern text: the
quantifiers themselves plus classes, braces, anchors, alternation,
backslash and parentheses. -/
def isRegexSpecial (c : Char) : Bool :=
  c = '*' || c = '+' || c = '?' || c = '[' || c = ']' || c = '\x7b' ||
  c = '\x7d' || c = '^' || c = '$' || c = '|' || c = '\\' ||
  c = '(' || c = ')'

/-- The atom denoted by a pattern character. -/
def atomOf (c : Char) : RAtom :=
  if c = '.' then RAtom.dot else RAtom.lit c

/-- Is this character a postfix quantifier? -/
def isQuant (c : Char) : Bool :=
  c = '*' || c = '+' || c = '?'

/-- The token built from a quantifier character applied to an atom. -/
def quantTok (q : Char) (a : RAtom) : RTok :=
  if q = '*' then RTok.star a else if q = '+' then RTok.plus a else RTok.opt a

/-- Parse a pattern string into tokens; none means the pattern is outside
the supported subset (modelled as a pattern error).  A leading or
doubled quantifier is a special head character and yields none, as does
an unbalanced parenthesis, matching re.error in Python. -/
def parseRegex : List Char → Option (List RTok)
  | [] => some []
  | [c] => if isRegexSpecial c then none else some [RTok.one (atomOf c)]
  | c :: c2 :: rest =>
    if isRegexSpecial c then none
    else if isQuant c2 then
      (parseRegex rest).map (fun ts => quantTok c2 (atomOf c) :: ts)
    else
      (parseRegex (c2 :: rest)).map (fun ts => RTok.one (atomOf c) :: ts)

/-- Case-insensitive atom match; '.' does not match a newline. -/
def atomMatch (a : RAtom) (c : Char) : Bool :=
  match a with
  | RAtom.dot => c ≠ '\n'
  | RAtom.lit l => l.toLower = c.toLower

/-- Match a token list against a prefix of the text (booleanised regex
semantics: a starred or plussed atom may consume any admissible count). -/
def matchHere : List RTok → List Char → Bool
  | [], _ => true
  | RTok.one a :: ts, cs =>
    match cs with
    | [] => false
    | c :: cs2 => atomMatch a c && matchHere ts cs2
  | RTok.opt a :: ts, cs =>
    matchHere ts cs ||
      (match cs with
       | [] => false
       | c :: cs2 => atomMatch a c && matchHere ts cs2)
  | RTok.star a :: ts, cs =>
    (List.range (cs.length + 1)).any
      (fun k => (cs.take k).all (atomMatch a) && matchHere ts (cs.drop k))
  | RTok.plus a :: ts, cs =>
    (List.range (cs.length + 1)).any
      (fun k => decide (0 < k) && (cs.take k).all (atomMatch a) && matchHere ts (cs.drop k))

/-- re.search as a boolean: does the pattern match starting at any
position (including the end-of-string position)? -/
def reSearch (ts : List RTok) : List Char → Bool
  | [] => matchHere ts []
  | c :: cs => matchHere ts (c :: cs) || reSearch ts cs

/-- pandas str.contains(pattern, na=False, case=False) on one cell. -/
def strContainsRe (ts : List RTok) (v : Cell) : Bool :=
  match v with
  | Cell.na => false
  | Cell.str s => reSearch ts s.data
  | Cell.int n => reSearch ts (toString n).data

/-! ### SchemaMapper: alias matching (src/app.py lines 9-25) -/

/-- Split a delimiter-separated alias string and strip each alias. -/
def splitAliases (possible : String) : List String :=
  (splitOnOr possible).map pyStrip

/-- get_matching_columns: for each alias in order, every column whose
stripped lowercased name equals the lowercased alias, in column order
within one alias. -/
def get_matching_columns (cols : List String) (possible : String) : List String :=
  (splitAliases possible).flatMap
    (fun name => cols.filter (fun c => pyLower (pyStrip c) = pyLower name))

/-- get_single_matching_column: the first column matching the first alias
that has any match. -/
def get_single_matching_column (cols : List String) (possible : String) : Option String :=
  (splitAliases possible).findSome?
    (fun name => (cols.filter (fun c => pyLower (pyStrip c) = pyLower name)).head?)

/-! ### The DataFrame model

A column-major table: a row count and a list of named columns.  Lookup
by name takes the first column with that name; assignment replaces every
column with that name (pandas semantics for duplicate labels) or appends
a new column. -/

/-- A column-major DataFrame. -/
structure DF where
  nrows : Nat
  data : List (String × List Cell)
  deriving DecidableEq

/-- Membership of a column name in a data list. -/
def hasColData (l : List (String × List Cell)) (c : String) : Bool :=
  l.any (fun p => p.1 = c)

/-- The values of the first column named c in a data list. -/
def colValsData (l : List (String × List Cell)) (c : String) : List Cell :=
  match l.find? (fun p => p.1 = c) with
  | some p => p.2
  | none => []

/-- Column assignment on a data list: replace every column named c
(pandas sets all duplicate labels), or append a new column. -/
def setColData (l : List (String × List Cell)) (c : String) (vs : List Cell) :
    List (String × List Cell) :=
  if hasColData l c then l.map (fun p => if p.1 = c then (c, vs) else p)
  else l ++ [(c, vs)]

/-- Column names in order. -/
def DF.colNames (df : DF) : List String :=
  df.data.map (fun p => p.1)

/-- Membership test for a column name. -/
def DF.hasCol (df : DF) (c : String) : Bool :=
  hasColData df.data c

/-- The values of the first column named c ([] when absent). -/
def DF.colVals (df : DF) (c : String) : List Cell :=
  colValsData df.data c

/-- The cell of column c in row i (NaN out of range). -/
def DF.cellAt (df : DF) (c : String) (i : Nat) : Cell :=
  (df.colVals c).getD i Cell.na

/-- df[c] = vs : replace every column named c, or append one. -/
def DF.setCol (df : DF) (c : String) (vs : List Cell) : DF :=
  { df with data := setColData df.data c vs }

/-- df.at[i, c] = v : point update of one cell. -/
def DF.setAt (df : DF) (c : String) (i : Nat) (v : Cell) : DF :=
  df.setCol c ((df.colVals c).set i v)

/-- Apply a source-to-target rename mapping to one column name. -/
def applyMapping (m : List (String × String)) (c : String) : String :=
  match m.find? (fun p => p.1 = c) with
  | some p => p.2
  | none => c

/-- df.rename(columns=m). -/
def DF.rename (df : DF) (m : List (String × String)) : DF :=
  { df with data := df.data.map (fun p => (applyMapping m p.1, p.2)) }

/-- df[cs] : project onto the named columns, in the given order.  As in
pandas, a name that labels several columns selects every one of them, in
table order, so a duplicated label widens the projection. -/
def DF.select (df : DF) (cs : List String) : DF :=
  { nrows := df.nrows,
    data := cs.flatMap (fun c => df.data.filter (fun p => p.1 = c)) }

/-- pd.concat(dfs, ignore_index=True) for frames sharing one schema:
columns are aligned positionally, as pandas does for identical header
lists, so duplicate labels keep their own value columns. -/
def concatDFs (ds : List DF) : DF :=
  match ds with
  | [] => { nrows := 0, data := [] }
  | d :: tl =>
    { nrows := ((d :: tl).map (fun e => e.nrows)).sum,
      data := (List.range d.data.length).map
        (fun j => ((d.data.getD j ("", [])).1,
          (d :: tl).flatMap (fun e => (e.data.getD j ("", [])).2))) }

/-! ### Log events

Each constructor stands for one log_callback call site of src/app.py;
the run result carries the ordered trace of emitted events. -/

inductive LogEv where
  | pathsInfo
  | loadingPin
  | pinSheetOk
  | pinSheetMissing
  | pinTryFirst
  | pinUsingSheet
  | pinReadError
  | pinColsInfo : List String → LogEv
  | pinUsingPinCol : String → LogEv
  | pinUsingCityCol : String → LogEv
  | pinUsingPositional
  | pinColsError
  | pinLoaded : Nat → LogEv
  | pinAbort
  | senderLoaded : Nat → LogEv
  | senderLoadError
  | inputDirMissing
  | foundFiles : Nat → LogEv
  | processingFile : String → LogEv
  | readOkay : Nat → Nat → LogEv
  | readError : String → LogEv
  | senderFound : String → LogEv
  | addressColsFound : List String → LogEv
  | noSenderDetails : String → LogEv
  | processedFile : String → LogEv
  | fileError : String → LogEv
  | pincodePass
  | extractedPins : Nat → LogEv
  | noPincodeColumn
  | cityPass
  | pinNotFound : String → LogEv
  | mappedCities : Nat → LogEv
  | noCityColumn
  | backfillStart
  | savingOutput : Nat → LogEv
  | savedOutput
  | summary : Nat → Nat → LogEv
  | noFiles
  deriving DecidableEq

/-! ### ReferenceTableLoader (src/app.py lines 62-142) -/

/-- How reading PIN.xlsx went before column identification: the
TBLPINCITY sheet was read, the first sheet was read as a fallback, or
the workbook could not be read at all. -/
inductive PinRead where
  | sheetOk : DF → PinRead
  | firstSheet : DF → PinRead
  | unreadable : PinRead
  deriving DecidableEq

/-- The exact-match scan for the pincode column (lines 91-95): a single
loop with if/elif, so the LAST column whose stripped uppercase name is
PINCODE wins. -/
def exactPinCol (cols : List String) : Option String :=
  cols.foldl (fun acc c => if pyUpper (pyStrip c) = "PINCODE" then some c else acc) none

/-- The exact-match scan for the city column: the elif branch, skipped
for columns that matched PINCODE. -/
def exactCityCol (cols : List String) : Option String :=
  cols.foldl
    (fun acc c =>
      if pyUpper (pyStrip c) = "PINCODE" then acc
      else if pyUpper (pyStrip c) = "CITY" then some c
      else acc)
    none

/-- The identification cascade of lines 86-120: exact match, then
substring match ('PIN' in col.upper(), first hit), then positional
fallback overwriting both when either is still missing. -/
def identifyPinCols (cols : List String) : List LogEv × Option (String × String) :=
  let p1 :=
    match exactPinCol cols with
    | some c => (([] : List LogEv), some c)
    | none =>
      match cols.find? (fun c => containsCh "PIN".data (pyUpper c).data) with
      | some c => ([LogEv.pinUsingPinCol c], some c)
      | none => ([], none)
  let c1 :=
    match exactCityCol cols with
    | some c => (([] : List LogEv), some c)
    | none =>
      match cols.find? (fun c => containsCh "CITY".data (pyUpper c).data) with
      | some c => ([LogEv.pinUsingCityCol c], some c)
      | none => ([], none)
  match p1.2, c1.2 with
  | some p, some c => (p1.1 ++ c1.1, some (p, c))
  | _, _ =>
    match cols with
    | a :: b :: _ => (p1.1 ++ c1.1 ++ [LogEv.pinUsingPositional], some (a, b))
    | _ => (p1.1 ++ c1.1 ++ [LogEv.pinColsError], none)

/-- Standardize one reference row (line 128-131): astype(str) then
clean_pincode on the pincode cell, astype(str).strip().upper() on the
city cell. -/
def standardizePair (pc : Cell × Cell) : String × String :=
  (clean_pincode (Cell.str (cellStr pc.1)), pyUpper (pyStrip (cellStr pc.2)))

/-- Standardize and filter the zipped reference rows: rows whose cleaned
pincode is not exactly 6 characters long are dropped (line 134). -/
def pinRowsOfPairs (l : List (Cell × Cell)) : List (String × String) :=
  (l.map standardizePair).filter (fun r => r.1.length = 6)

/-- The reference rows produced from identified pincode/city columns. -/
def pinRowsOf (df : DF) (p c : String) : List (String × String) :=
  pinRowsOfPairs ((df.colVals p).zip (df.colVals c))

/-- Column identification and row standardization applied to a
successfully read workbook sheet. -/
def loadPinFromDF (l0 : List LogEv) (df : DF) : List LogEv × List (String × String) :=
  let l1 := l0 ++ [LogEv.pinColsInfo df.colNames] ++ (identifyPinCols df.colNames).1
  match (identifyPinCols df.colNames).2 with
  | none => (l1, [])
  | some pc =>
    let rows := pinRowsOf df pc.1 pc.2
    (l1 ++ [LogEv.pinLoaded rows.length], rows)

/-- load_pin_database: an unreadable workbook, a failed column
identification, or row filtering all funnel into a (possibly empty)
Pincode/City list, with the log lines of the path taken. -/
def load_pin_database (pr : PinRead) : List LogEv × List (String × String) :=
  match pr with
  | PinRead.unreadable =>
    ([LogEv.loadingPin, LogEv.pinSheetMissing, LogEv.pinTryFirst, LogEv.pinReadError], [])
  | PinRead.sheetOk df => loadPinFromDF [LogEv.loadingPin, LogEv.pinSheetOk] df
  | PinRead.firstSheet df =>
    loadPinFromDF [LogEv.loadingPin, LogEv.pinSheetMissing, LogEv.pinTryFirst, LogEv.pinUsingSheet] df

/-! ### Column mappings and canonical output schema
(src/app.py lines 162-179, transcribed verbatim) -/

def column_mappings : List (String × String) := [
  ("SL", "SL Or sr Or srno Or SR. NO. Or sr. no."),
  ("Barcode", "Barcode Or Barcodes Or awb Or QR Post Or POD Or pod Or Bar code  Or Bar code"),
  ("REF", "REF Or reference Or code Or Reference No. Or Ref.No. Or Notice Ref. No. Or ref_no Or Ref. No."),
  ("AddrePincode", "AddrePincode Or CustAddrePincode Or CustAddrePincode Or Pincode Or Pin code Or Pin Or Pin.Code Or PIN CODE_DPM Or PIN_CODE"),
  ("AddreName", "Name Or CustomerName Or name borower Or Customer Name Or CUSTOMER FULL NAME"),
  ("AddreCity", "AddreCity Or CustAddreCity Or City Or district Or Dist_ Or Or CUSTADR_CITY Or DISTRICT Or DISTRICT_DPM")]

def address_columns : String :=
  "add 1 Or add 2 Or add 3 Or add_1 Or add_2 Or add_3 Or add1 Or add2 Or add3 Or CustAddreADD1 Or CustAddre_ADD2 Or CustAddre_ADD3 Or  State Or Customeradd1 Or Customeradd2 Or Customeradd3 Or Customeradd4 Or address1 Or address2 Or address3 Or address4 Or Address Or Customer Address Or Add_1 Or add Or ADD1 Or ADD2 Or CUSTOMER ADDRESS 1 Or CUSTOMER ADDRESS 2 Or add_1 Or CUSTOMER_ADDRESS Or  ADDRESS "

def output_columns : List String := [
  "SL", "Barcode", "REF", "SenderCity", "SenderPincode", "SenderName", "SenderADD1",
  "SenderADD2", "SenderADD3", "AddreCity", "AddrePincode", "AddreName", "AddreADD1",
  "Addre_ADD2", "Addre_ADD3", "ADDREMAIL", "ADDRMOBILE", "SENDERMOBILE", "Weight",
  "InsVal", "PrPdAmount", "PrPdType", "FMLisenceId", "FMSomNo", "Input File Name", "Sheet Name"]

/-- The six sender fields copied per file (lines 274-287). -/
def senderFieldsList : List String :=
  ["SenderCity", "SenderPincode", "SenderName", "SenderADD1", "SenderADD2", "SenderADD3"]

/-! ### SenderResolver and per-file processing
(src/app.py lines 209-305) -/

/-- Truncate a character list at the first occurrence of a character
(Python s.split(sep)[0] for a one-character separator). -/
def takeUntil (stop : Char) : List Char → List Char
  | [] => []
  | c :: cs => if c = stop then [] else c :: takeUntil stop cs

/-- base_filename: truncate at the first '-', then at the first '.',
then strip (line 238). -/
def base_filename (filename : String) : String :=
  pyStrip ((takeUntil '.' (takeUntil '-' filename.data)).asString)

/-- The row indices of sender_details whose 'File Name Contain' value
matches the pattern (pandas boolean-mask filtering keeps row order). -/
def senderMatchedIdx (senderDF : DF) (ts : List RTok) : List Nat :=
  (List.range senderDF.nrows).filter
    (fun i => strContainsRe ts (senderDF.cellAt "File Name Contain" i))

/-- sender_info.get(c, '') : the cell of the matched row when the column
exists, the default '' when the sender table has no such column. -/
def senderGet (senderDF : DF) (i : Nat) (c : String) : Cell :=
  if senderDF.hasCol c then senderDF.cellAt c i else Cell.str ""

/-- Build the rename dictionary (lines 247-252): for each canonical
target in mapping order, the single matching source column, keyed by
source with dict overwrite semantics. -/
def upsertMapping (m : List (String × String)) (src tgt : String) : List (String × String) :=
  if m.any (fun p => p.1 = src) then
    m.map (fun p => if p.1 = src then (src, tgt) else p)
  else m ++ [(src, tgt)]

def buildMapping (cols : List String) : List (String × String) :=
  column_mappings.foldl
    (fun acc p =>
      match get_single_matching_column cols p.2 with
      | some src => upsertMapping acc src p.1
      | none => acc)
    []

/-- Join one row's address parts (line 267-269): fillna(''), drop empty
strings (filter(None, ...)), join with ', ', then strip. -/
def joinAddressRow (vals : List Cell) : String :=
  pyStrip ((joinWith ", ".data (((vals.map (fun v => cellStr (fillna v))).filter (fun s => s ≠ "")).map String.data)).asString)

/-- The address-concatenation step: when any address alias matches, the
composite AddreADD1 column is built row by row over the matched columns
in get_matching_columns order. -/
def addressStep (df : DF) : DF × List LogEv :=
  let acols := get_matching_columns df.colNames address_columns
  if acols.isEmpty then (df, [])
  else
    let vals := (List.range df.nrows).map
      (fun i => Cell.str (joinAddressRow (acols.map (fun c => df.cellAt c i))))
    (df.setCol "AddreADD1" vals, [LogEv.addressColsFound acols])

/-- Lines 271-287: copy the six sender fields from the first matched
sender row onto every row; the else branch fills them with '' when the
match is empty. -/
def addSenderInfo (senderDF : DF) (matched : List Nat) (df : DF) : DF × List LogEv :=
  match matched with
  | i :: _ =>
    (senderFieldsList.foldl
       (fun d c => d.setCol c (List.replicate d.nrows (senderGet senderDF i c))) df,
     [])
  | [] =>
    (senderFieldsList.foldl
       (fun d c => d.setCol c (List.replicate d.nrows (Cell.str ""))) df,
     [LogEv.noSenderDetails ""])

/-- Line 290: SL = range(1, len+1), an integer sequence. -/
def slStep (df : DF) : DF :=
  df.setCol "SL" ((List.range df.nrows).map (fun i => Cell.int (i + 1)))

/-- One step of the existence pass: create the column with '' values
when it is absent. -/
def ensureStep (d : DF) (c : String) : DF :=
  if d.hasCol c then d else d.setCol c (List.replicate d.nrows (Cell.str ""))

/-- Lines 292-295: every canonical output column that is absent is
created with the empty-string value. -/
def ensureCols (df : DF) : DF :=
  output_columns.foldl ensureStep df

/-- Lines 297-299: stamp the file metadata columns. -/
def metaStep (df : DF) (filename sheetName : String) : DF :=
  (df.setCol "Input File Name" (List.replicate df.nrows (Cell.str filename))).setCol
    "Sheet Name" (List.replicate df.nrows (Cell.str sheetName))

/-- The frame a successfully matched file contributes, as built by the
success branch of the per-file body: rename, address concatenation,
sender fields, SL, column completion, metadata, projection. -/
def processedOutput (senderDF : DF) (filename sheetName : String) (df0 : DF)
    (matched : List Nat) : DF :=
  (metaStep
      (ensureCols
        (slStep
          (addSenderInfo senderDF matched
            (addressStep (df0.rename (buildMapping df0.colNames))).1).1))
      filename sheetName).select output_columns

/-- One directory entry as the pipeline sees it: the filename, the read
outcome (none models a read exception), and the workbook's first sheet
name (used only for spreadsheet extensions). -/
structure FileEnv where
  filename : String
  readRes : Option DF
  sheet0 : String
  deriving DecidableEq

def isExcelName (f : String) : Bool :=
  pyEndsWith f ".xlsx" || pyEndsWith f ".xls"

def hasInputExt (f : String) : Bool :=
  pyEndsWith f ".txt" || pyEndsWith f ".csv" || pyEndsWith f ".xlsx" || pyEndsWith f ".xls"

/-- The per-file body of the merge loop (lines 209-305).  Except.error
is the per-file exception path (error counter); ok none means the file
was read but not appended (no sender match); ok (some out) is a
processed contribution. -/
def processFile (senderDF : DF) (fe : FileEnv) : List LogEv × Except Unit (Option DF) :=
  let l0 := [LogEv.processingFile fe.filename]
  match fe.readRes with
  | none => (l0 ++ [LogEv.readError fe.filename], Except.error ())
  | some df0 =>
    let sheetName := if isExcelName fe.filename then fe.sheet0 else ""
    let l1 := l0 ++ [LogEv.readOkay df0.nrows df0.colNames.length]
    let base := base_filename fe.filename
    if senderDF.nrows = 0 then (l1, Except.ok none)
    else if !senderDF.hasCol "File Name Contain" then
      (l1 ++ [LogEv.fileError fe.filename], Except.error ())
    else
      match parseRegex base.data with
      | none => (l1 ++ [LogEv.fileError fe.filename], Except.error ())
      | some pat =>
        let matched := senderMatchedIdx senderDF pat
        if matched.isEmpty then (l1, Except.ok none)
        else
          let df1 := df0.rename (buildMapping df0.colNames)
          (l1 ++ [LogEv.senderFound base] ++ (addressStep df1).2 ++
             (addSenderInfo senderDF matched (addressStep df1).1).2 ++
             [LogEv.processedFile fe.filename],
           Except.ok (some (processedOutput senderDF fe.filename sheetName df0 matched)))

/-- The rows a file contributes to the merged batch: none unless the
per-file body appended a processed frame. -/
def fileContribution (senderDF : DF) (fe : FileEnv) : Option DF :=
  match (processFile senderDF fe).2 with
  | Except.ok (some d) => some d
  | _ => none

/-! ### RecordEnricher backfill pass
(process_pincodes_and_cities, src/app.py lines 335-386) -/

/-- The pincode-to-city lookup used by the backfill (lines 377-379):
the first physical row whose Pincode equals the key. -/
def lookupCity (pinRows : List (String × String)) (p : String) : Option String :=
  (pinRows.find? (fun r => r.1 = p)).map (fun r => r.2)

/-- Scan the address sub-fields in order and take the first non-empty
extraction (lines 354-362); columns absent from the frame are skipped. -/
def backfillPinRow (df : DF) (i : Nat) : String :=
  ((["AddreADD1", "Addre_ADD2", "Addre_ADD3"].filterMap
      (fun c =>
        if df.hasCol c then
          let p := extract_pincode_from_text (df.cellAt c i)
          if p ≠ "" then some p else none
        else none)).headD "")

/-- One iteration of the pincode loop: leave truthy pincodes alone,
otherwise write the first extracted pincode if any; the counter tracks
the 'Extracted N pincodes' log line. -/
def pinLoopStep (acc : DF × Nat) (i : Nat) : DF × Nat :=
  if cellTruthy (acc.1.cellAt "AddrePincode" i) then acc
  else
    let p := backfillPinRow acc.1 i
    if p ≠ "" then (acc.1.setAt "AddrePincode" i (Cell.str p), acc.2 + 1) else acc

/-- One iteration of the city loop: when the city is empty and the
pincode is truthy, look the pincode up and assign the first match,
logging a miss otherwise. -/
def cityLoopStep (pinRows : List (String × String)) (acc : DF × Nat × List LogEv) (i : Nat) :
    DF × Nat × List LogEv :=
  let city := acc.1.cellAt "AddreCity" i
  let pin := acc.1.cellAt "AddrePincode" i
  if (!cellTruthy city || city = Cell.str "") && cellTruthy pin then
    match lookupCity pinRows (cellStr pin) with
    | some cty => (acc.1.setAt "AddreCity" i (Cell.str cty), acc.2.1 + 1, acc.2.2)
    | none => (acc.1, acc.2.1, acc.2.2 ++ [LogEv.pinNotFound (cellStr pin)])
  else acc

/-- The pincode half of process_pincodes_and_cities (lines 346-366):
re-clean the column, then backfill empty entries from the address
fields. -/
def pincodePass (df : DF) : List LogEv × DF :=
  if df.hasCol "AddrePincode" then
    let cleaned := (df.colVals "AddrePincode").map
      (fun c => Cell.str (clean_pincode (Cell.str (cellStr (fillna c)))))
    let dfA := df.setCol "AddrePincode" cleaned
    let r := (List.range dfA.nrows).foldl pinLoopStep (dfA, 0)
    ([LogEv.pincodePass, LogEv.extractedPins r.2], r.1)
  else
    ([LogEv.noPincodeColumn], df.setCol "AddrePincode" (List.replicate df.nrows (Cell.str "")))

/-- The city half of process_pincodes_and_cities (lines 368-386):
strip the column, then backfill empty entries by pincode lookup. -/
def cityPass (pinRows : List (String × String)) (df1 : DF) : List LogEv × DF :=
  if df1.hasCol "AddreCity" then
    let stripped := (df1.colVals "AddreCity").map
      (fun c => Cell.str (pyStrip (cellStr (fillna c))))
    let dfA := df1.setCol "AddreCity" stripped
    let r := (List.range dfA.nrows).foldl (cityLoopStep pinRows) (dfA, 0, [])
    ([LogEv.cityPass] ++ r.2.2 ++ [LogEv.mappedCities r.2.1], r.1)
  else
    ([LogEv.noCityColumn], df1.setCol "AddreCity" (List.replicate df1.nrows (Cell.str "")))

/-- process_pincodes_and_cities: re-clean the pincode column, backfill
missing pincodes from the address fields, then strip the city column and
backfill missing cities from the reference rows.  Mirrors the in-place
mutation loops of lines 346-386. -/
def process_pincodes_and_cities (df : DF) (pinRows : List (String × String)) :
    List LogEv × DF :=
  ([LogEv.backfillStart] ++ (pincodePass df).1 ++ (cityPass pinRows (pincodePass df).2).1,
   (cityPass pinRows (pincodePass df).2).2)

/-! ### MergePipeline orchestrator
(merge_customer_files, src/app.py lines 146-333) -/

/-- The run environment: what the filesystem hands the pipeline.
pinRaw is the PIN.xlsx read outcome, senderRaw the Sender Address.xlsx
read outcome (none models the read exception that falls back to an
empty sender table), inputDirFound whether the Input directory exists,
and dirEntries the directory listing with each file's read outcome. -/
structure RunEnv where
  pinRaw : PinRead
  senderRaw : Option DF
  inputDirFound : Bool
  dirEntries : List FileEnv
  deriving DecidableEq

/-- The fallback sender table of line 195. -/
def senderFallback : DF :=
  { nrows := 0,
    data := [("File Name Contain", []), ("SenderCity", []), ("SenderPincode", []),
             ("SenderName", []), ("SenderADD1", []), ("SenderADD2", []), ("SenderADD3", [])] }

/-- Loading the sender workbook (lines 188-195). -/
def loadSender : Option DF → List LogEv × DF
  | some d => ([LogEv.senderLoaded d.nrows], d)
  | none => ([LogEv.senderLoadError], senderFallback)

/-- The outcome of one run: the ordered log trace, the written artifact
(none when the run aborted or had nothing to write), and the final
processed/error counters. -/
structure RunResult where
  logs : List LogEv
  out : Option DF
  processed : Nat
  errors : Nat
  deriving DecidableEq

/-- Accumulator of the per-file loop. -/
structure MergeAcc where
  logs : List LogEv
  dfs : List DF
  processed : Nat
  errors : Nat

/-- One iteration of the per-file loop. -/
def mergeStep (senderDF : DF) (acc : MergeAcc) (fe : FileEnv) : MergeAcc :=
  let lf := (processFile senderDF fe).1
  match (processFile senderDF fe).2 with
  | Except.error _ =>
    { acc with logs := acc.logs ++ lf, errors := acc.errors + 1 }
  | Except.ok none =>
    { acc with logs := acc.logs ++ lf }
  | Except.ok (some d) =>
    { acc with logs := acc.logs ++ lf, dfs := acc.dfs ++ [d], processed := acc.processed + 1 }

/-- merge_customer_files as a function of the run environment. -/
def merge_customer_files (env : RunEnv) : RunResult :=
  let l0 := [LogEv.pathsInfo]
  let lp := (load_pin_database env.pinRaw).1
  let pinRows := (load_pin_database env.pinRaw).2
  if pinRows.isEmpty then
    { logs := l0 ++ lp ++ [LogEv.pinAbort], out := none, processed := 0, errors := 0 }
  else
    let lsnd := (loadSender env.senderRaw).1
    let senderDF := (loadSender env.senderRaw).2
    if !env.inputDirFound then
      { logs := l0 ++ lp ++ lsnd ++ [LogEv.inputDirMissing], out := none,
        processed := 0, errors := 0 }
    else
      let files := env.dirEntries.filter (fun fe => hasInputExt fe.filename)
      let l1 := l0 ++ lp ++ lsnd ++ [LogEv.foundFiles files.length]
      let acc := files.foldl (mergeStep senderDF)
        { logs := l1, dfs := [], processed := 0, errors := 0 }
      if acc.dfs.isEmpty then
        { logs := acc.logs ++ [LogEv.noFiles], out := none,
          processed := acc.processed, errors := acc.errors }
      else
        let final := (process_pincodes_and_cities (concatDFs acc.dfs) pinRows).2
        { logs := acc.logs ++ (process_pincodes_and_cities (concatDFs acc.dfs) pinRows).1 ++
                  [LogEv.savingOutput final.nrows, LogEv.savedOutput,
                   LogEv.summary acc.processed acc.errors],
          out := some final,
          processed := acc.processed, errors := acc.errors }

/-! ### Definitions modelled from the spec's words

Each definition below follows the specification text (not the source),
so that refinement claims can compare the two. -/

/-- Modelled from the spec: the 25-column output schema as the data
model enumerates it (SL, Barcode, REF, the six Sender fields, the eight
Addre address/contact fields, Weight, InsVal, PrPdAmount, PrPdType,
FMLisenceId, FMSomNo, Input File Name, Sheet Name). -/
def spec25Columns : List String := [
  "SL", "Barcode", "REF", "SenderCity", "SenderPincode", "SenderName", "SenderADD1",
  "SenderADD2", "SenderADD3", "AddreCity", "AddrePincode", "AddreName", "AddreADD1",
  "Addre_ADD2", "Addre_ADD3", "ADDREMAIL", "ADDRMOBILE", "Weight",
  "InsVal", "PrPdAmount", "PrPdType", "FMLisenceId", "FMSomNo", "Input File Name", "Sheet Name"]

/-- Modelled from the spec: case-insensitive substring containment, the
matching the spec ascribes to the sender resolver. -/
def containsCI (needle hay : String) : Bool :=
  containsCh (pyLower needle).data (pyLower hay).data

/-- Modelled from the spec: every input column matching any address
alias, in table column order. -/
def matchAllTableOrder (cols : List String) (possible : String) : List String :=
  cols.filter (fun c => (splitAliases possible).any (fun a => pyLower (pyStrip c) = pyLower a))

/-- Modelled from the spec: join ALL matched address values null-filled
to empty string with ', ', then trim (no dropping of empty parts). -/
def joinNullFilled (vals : List Cell) : String :=
  pyStrip ((joinWith ", ".data ((vals.map (fun v => cellStr (fillna v))).map String.data)).asString)

/-- Modelled from the spec (claim C5 as stated): the fallback pattern
allows only a space or hyphen as separator. -/
def sepHereSpaceHyphen (pw : Bool) (l : List Char) : Option (List Char) :=
  if pw then none
  else if digitRun l 3 then
    match l.drop 3 with
    | s :: rest =>
      if (s = ' ' || s = '-') && digitRun rest 3 && tailBoundary rest 3 then
        some (l.take 3 ++ s :: rest.take 3)
      else if digitRun l 6 && tailBoundary l 6 then some (l.take 6)
      else none
    | [] => none
  else none

def searchSepSpaceHyphen : Bool → List Char → Option (List Char)
  | _, [] => none
  | pw, c :: cs =>
    match sepHereSpaceHyphen pw (c :: cs) with
    | some m => some m
    | none => searchSepSpaceHyphen (isWordChar c) cs

/-- Modelled from the spec (claim C5 as stated): extraction whose
fallback separator class is space-or-hyphen, separator removed. -/
def extractSpecClaim (text : Cell) : String :=
  if cellIsNa text then ""
  else
    let cs := (cellStr text).data
    match search6 false cs with
    | some m => m.asString
    | none =>
      match searchSepSpaceHyphen false cs with
      | some m => ((m.filter (fun c => c ≠ ' ')).filter (fun c => c ≠ '-')).asString
      | none => ""

/-- Whether the character before position i is a word character (the
part of the word-boundary condition that depends on the left context);
position 0 has no previous character. -/
def prevWordAt (pw : Bool) (cs : List Char) (i : Nat) : Bool :=
  if i = 0 then pw else isWordChar (cs.getD (i - 1) ' ')

/-- Declarative reading of the standalone-6-digit search: the least
position at which the bounded 6-digit pattern matches. -/
def firstStand6Idx (pw : Bool) (cs : List Char) : Option Nat :=
  (List.range cs.length).find? (fun i => stand6Here (prevWordAt pw cs i) (cs.drop i))

/-- Declarative reading of the separated-pattern search: the least
position at which the 3-separator-3 pattern matches. -/
def firstSepIdx (pw : Bool) (cs : List Char) : Option Nat :=
  (List.range cs.length).find? (fun i => (sepHere (prevWordAt pw cs i) (cs.drop i)).isSome)

/-- The amended extraction contract, stated positionally: take the
6-digit run at the least standalone-match position; otherwise the
3-separator-3 match at its least position with ' ' and '-' removed
(a tab or newline separator is retained); otherwise ''. -/
def extractByPositions (text : Cell) : String :=
  if cellIsNa text then ""
  else
    let cs := (cellStr text).data
    match firstStand6Idx false cs with
    | some i => ((cs.drop i).take 6).asString
    | none =>
      match firstSepIdx false cs with
      | some i =>
        match sepHere (prevWordAt false cs i) (cs.drop i) with
        | some m => ((m.filter (fun c => c ≠ ' ')).filter (fun c => c ≠ '-')).asString
        | none => ""
      | none => ""

/-! ### Concrete environments used by witnesses and counterexamples -/

/-- A one-row sender table whose filename key is CAT. -/
def senderDFex : DF :=
  { nrows := 1,
    data := [("File Name Contain", [Cell.str "CAT"]),
             ("SenderCity", [Cell.str "PUNE"]),
             ("SenderPincode", [Cell.str "411001"]),
             ("SenderName", [Cell.str "ACME"]),
             ("SenderADD1", [Cell.str "A1"]),
             ("SenderADD2", [Cell.str "A2"]),
             ("SenderADD3", [Cell.str "A3"])] }

/-- A one-row reference workbook sheet. -/
def pinDFex : DF :=
  { nrows := 1, data := [("Pincode", [Cell.str "110001"]), ("City", [Cell.str "Delhi"])] }

/-- An ordinary input file whose truncated name CAT matches the sender
key, with a missing city to be backfilled from the reference table. -/
def fileCat : FileEnv :=
  { filename := "CAT-1.xlsx",
    readRes := some
      { nrows := 1,
        data := [("REF", [Cell.str "r1"]), ("Name", [Cell.str "Bob"]),
                 ("Pincode", [Cell.str "110001"]), ("City", [Cell.str ""])] },
    sheet0 := "Sheet1" }

/-- An input file whose truncated name contains a regex metacharacter. -/
def fileStar : FileEnv :=
  { filename := "AB*-1.xlsx",
    readRes := some { nrows := 1, data := [("REF", [Cell.str "r1"])] },
    sheet0 := "Sheet1" }

/-- An input file whose truncated name DOG matches no sender key. -/
def fileDog : FileEnv :=
  { filename := "DOG-1.xlsx",
    readRes := some { nrows := 1, data := [("REF", [Cell.str "r1"])] },
    sheet0 := "Sheet1" }

/-- A normal one-file run. -/
def envCat : RunEnv :=
  { pinRaw := PinRead.sheetOk pinDFex, senderRaw := some senderDFex,
    inputDirFound := true, dirEntries := [fileCat] }

/-- A run whose only input file has the metacharacter name. -/
def envStar : RunEnv :=
  { pinRaw := PinRead.sheetOk pinDFex, senderRaw := some senderDFex,
    inputDirFound := true, dirEntries := [fileStar] }

/-- A run whose reference workbook is unreadable. -/
def envPinFail : RunEnv :=
  { pinRaw := PinRead.unreadable, senderRaw := some senderDFex,
    inputDirFound := true, dirEntries := [fileCat] }

/-- A run whose input directory is missing. -/
def envNoDir : RunEnv :=
  { pinRaw := PinRead.sheetOk pinDFex, senderRaw := some senderDFex,
    inputDirFound := false, dirEntries := [] }

/-- A table whose two address columns appear in the order add 2, add 1. -/
def dfAddr : DF :=
  { nrows := 1, data := [("add 2", [Cell.str "X"]), ("add 1", [Cell.str ""])] }

/-- A merged batch with an empty pincode and a newline-separated code
inside the address text. -/
def dfNewline : DF :=
  { nrows := 1,
    data := [("AddrePincode", [Cell.str ""]), ("AddreCity", [Cell.str "X"]),
             ("AddreADD1", [Cell.str "110\n001"])] }

/-- A merged batch with a pincode but no city. -/
def dfDupLookup : DF :=
  { nrows := 1,
    data := [("AddrePincode", [Cell.str "100000"]), ("AddreCity", [Cell.str ""])] }

/-- A reference table with a duplicated pincode. -/
def dupPinRows : List (String × String) :=
  [("100000", "MUMBAI"), ("100000", "DELHI")]

/-- The token list of a pattern read as a plain literal string. -/
def litToks (s : String) : List RTok :=
  s.data.map (fun ch => RTok.one (RAtom.lit ch))

/-- A character that is plain pattern text: neither a regex
metacharacter nor the '.' wildcard. -/
def isPlainChar (c : Char) : Bool :=
  !(isRegexSpecial c || c = '.')

/-- A filename key free of regex metacharacters; on such keys
re.search degenerates to case-insensitive substring search. -/
def isPlainKey (s : String) : Bool :=
  s.data.all isPlainChar

/-- Case-insensitive substring containment of a key in one sender cell,
with NaN never matching (str.contains na=False). -/
def cellContainsCI (key : String) (v : Cell) : Bool :=
  match v with
  | Cell.na => false
  | Cell.str s => containsCI key s
  | Cell.int n => containsCI key (cellStr (Cell.int n))

/-- No canonical output label is duplicated once the file's headers are
renamed: each output column appears at most once among the renamed
headers.  A file violating this (e.g. headers AddreName and Name, where
Name is an alias of AddreName but AddreName is not its own alias)
duplicates that label and widens the projection at app.py line 302. -/
def renameDupFree (fe : FileEnv) : Bool :=
  match fe.readRes with
  | some df0 =>
    output_columns.all (fun c =>
      decide (((df0.rename (buildMapping df0.colNames)).colNames.count c) ≤ 1))
  | none => true

/-- An input file whose headers AddreName and Name both rename to the
canonical AddreName label. -/
def fileDup : FileEnv :=
  { filename := "CAT-2.xlsx",
    readRes := some
      { nrows := 1,
        data := [("AddreName", [Cell.str "A"]), ("Name", [Cell.str "B"])] },
    sheet0 := "Sheet1" }

/-- A run over the duplicate-label file. -/
def envDup : RunEnv :=
  { pinRaw := PinRead.sheetOk pinDFex, senderRaw := some senderDFex,
    inputDirFound := true, dirEntries := [fileDup] }

/-- The shape every AddrePincode value has after the backfill pass:
empty, exactly six digits, or two 3-digit groups around one whitespace
separator other than space (the retained tab/newline case). -/
def pincodeShape (s : String) : Prop :=
  s = "" ∨ (s.data.length = 6 ∧ s.data.all Char.isDigit = true) ∨
    (∃ m1 w m2, s.data = m1 ++ w :: m2 ∧ m1.length = 3 ∧ m2.length = 3 ∧
      m1.all Char.isDigit = true ∧ m2.all Char.isDigit = true ∧
      isPySpace w = true ∧ w ≠ ' ' ∧ w ≠ '-')

/-- A backfilled cell: a string value of pincode shape. -/
def cellPinShape (c : Cell) : Prop :=
  ∃ s, c = Cell.str s ∧ pincodeShape s

/-! ## Lemmas about the DataFrame model -/

theorem hasCol_iff (df : DF) (c : String) : df.hasCol c = true ↔ c ∈ df.colNames := by
  simp [DF.hasCol, hasColData, DF.colNames, List.any_eq_true, List.mem_map]

theorem nrows_setCol (df : DF) (c : String) (vs : List Cell) :
    (df.setCol c vs).nrows = df.nrows := rfl

theorem nrows_setAt (df : DF) (c : String) (i : Nat) (v : Cell) :
    (df.setAt c i v).nrows = df.nrows := rfl

theorem find?_map_replace (l : List (String × List Cell)) (c : String) (vs : List Cell)
    (h : hasColData l c = true) :
    (l.map (fun p => if p.1 = c then (c, vs) else p)).find? (fun p => p.1 = c) =
      some (c, vs) := by
  induction l with
  | nil => simp [hasColData] at h
  | cons a l ih =>
    by_cases ha : a.1 = c
    · rw [List.map_cons, if_pos ha, List.find?_cons_of_pos _ (by simp)]
    · rw [List.map_cons, if_neg ha, List.find?_cons_of_neg _ (by simpa using ha)]
      exact ih (by simpa [hasColData, ha] using h)

theorem find?_map_replace_ne (l : List (String × List Cell)) (c c' : String) (vs : List Cell)
    (hne : c ≠ c') :
    (l.map (fun p => if p.1 = c' then (c', vs) else p)).find? (fun p => p.1 = c) =
      ((l.find? (fun p => p.1 = c)).map (fun p => if p.1 = c' then (c', vs) else p)) := by
  rw [List.find?_map]
  have he : ((fun p : String × List Cell => decide (p.1 = c)) ∘
      (fun p => if p.1 = c' then (c', vs) else p)) = (fun p => decide (p.1 = c)) := by
    funext p
    by_cases hp : p.1 = c'
    · have h1 : ¬(c' = c) := fun e => hne e.symm
      simp [Function.comp, hp, h1]
    · simp [Function.comp, hp]
  rw [he]

theorem colValsData_setColData_self (l : List (String × List Cell)) (c : String)
    (vs : List Cell) : colValsData (setColData l c vs) c = vs := by
  unfold setColData
  by_cases h : hasColData l c = true
  · rw [if_pos h]
    unfold colValsData
    rw [find?_map_replace l c vs h]
  · rw [if_neg h]
    unfold colValsData
    have hn : l.find? (fun p => p.1 = c) = none := by
      rw [List.find?_eq_none]
      intro x hx
      simp only [decide_eq_true_eq]
      intro hxc
      exact h (by rw [hasColData, List.any_eq_true]; exact ⟨x, hx, by simpa using hxc⟩)
    rw [List.find?_append, hn]
    simp

theorem colVals_setCol_self (df : DF) (c : String) (vs : List Cell) :
    (df.setCol c vs).colVals c = vs :=
  colValsData_setColData_self df.data c vs

theorem colValsData_setColData_ne (l : List (String × List Cell)) (c c' : String)
    (vs : List Cell) (hne : c ≠ c') :
    colValsData (setColData l c' vs) c = colValsData l c := by
  unfold setColData
  by_cases h : hasColData l c' = true
  · rw [if_pos h]
    unfold colValsData
    rw [find?_map_replace_ne l c c' vs hne]
    cases hf : l.find? (fun p => p.1 = c) with
    | none => simp
    | some p =>
      have hp : p.1 = c := by simpa using List.find?_some hf
      have hp' : ¬(p.1 = c') := fun e => hne (hp.symm.trans e)
      simp [hp']
  · rw [if_neg h]
    unfold colValsData
    rw [List.find?_append]
    cases hf : l.find? (fun p => p.1 = c) with
    | none =>
      have h1 : ¬(c' = c) := fun e => hne e.symm
      simp [h1]
    | some p => simp

theorem colVals_setCol_ne (df : DF) (c c' : String) (vs : List Cell) (hne : c ≠ c') :
    (df.setCol c' vs).colVals c = df.colVals c :=
  colValsData_setColData_ne df.data c c' vs hne

theorem colVals_setAt_ne (df : DF) (c c' : String) (i : Nat) (v : Cell) (hne : c ≠ c') :
    (df.setAt c' i v).colVals c = df.colVals c :=
  colVals_setCol_ne df c c' _ hne

theorem colVals_setAt_self (df : DF) (c : String) (i : Nat) (v : Cell) :
    (df.setAt c i v).colVals c = (df.colVals c).set i v :=
  colVals_setCol_self df c _

theorem hasColData_setColData (l : List (String × List Cell)) (c c' : String)
    (vs : List Cell) :
    hasColData (setColData l c' vs) c = (hasColData l c || decide (c = c')) := by
  unfold setColData
  by_cases h : hasColData l c' = true
  · rw [if_pos h]
    by_cases hcc : c = c'
    · subst hcc
      have hd : decide (c = c) = true := by simp
      rw [hd, Bool.or_true]
      unfold hasColData
      rw [List.any_eq_true]
      rw [hasColData, List.any_eq_true] at h
      obtain ⟨p, hp, hpc⟩ := h
      refine ⟨(c, vs), List.mem_map.mpr ⟨p, hp, ?_⟩, by simp⟩
      rw [if_pos (by simpa using hpc)]
    · have hd : decide (c = c') = false := decide_eq_false hcc
      rw [hd, Bool.or_false]
      unfold hasColData
      rw [List.any_map]
      congr 1
      funext p
      by_cases hp : p.1 = c'
      · have h1 : ¬(c' = c) := fun e => hcc e.symm
        have h2 : ¬(p.1 = c) := fun e => hcc (e.symm.trans hp)
        simp [Function.comp, hp, h1, h2]
      · simp [Function.comp, hp]
  · rw [if_neg h]
    unfold hasColData
    rw [List.any_append]
    simp [eq_comm]

theorem hasCol_setCol (df : DF) (c c' : String) (vs : List Cell) :
    (df.setCol c' vs).hasCol c = (df.hasCol c || decide (c = c')) :=
  hasColData_setColData df.data c c' vs

theorem hasCol_setAt (df : DF) (c c' : String) (i : Nat) (v : Cell) :
    (df.setAt c' i v).hasCol c = (df.hasCol c || decide (c = c')) :=
  hasCol_setCol df c c' _

theorem colNames_setCol_of_hasCol (df : DF) (c : String) (vs : List Cell)
    (h : df.hasCol c = true) :
    (df.setCol c vs).colNames = df.colNames := by
  show (setColData df.data c vs).map (fun p => p.1) = df.data.map (fun p => p.1)
  unfold setColData
  rw [if_pos (show hasColData df.data c = true from h)]
  rw [List.map_map]
  congr 1
  funext p
  by_cases hp : p.1 = c
  · simp [Function.comp, hp]
  · simp [Function.comp, hp]

theorem colNames_setAt (df : DF) (c : String) (i : Nat) (v : Cell)
    (h : df.hasCol c = true) :
    (df.setAt c i v).colNames = df.colNames :=
  colNames_setCol_of_hasCol df c _ h

theorem nrows_select (df : DF) (cs : List String) : (df.select cs).nrows = df.nrows := rfl

theorem find?_filter_same (l : List (String × List Cell)) (c : String) :
    (l.filter (fun p => p.1 = c)).find? (fun p => p.1 = c) =
      l.find? (fun p => p.1 = c) := by
  induction l with
  | nil => rfl
  | cons a l ih =>
    by_cases ha : a.1 = c
    · rw [List.filter_cons_of_pos (by simpa using ha),
        List.find?_cons_of_pos _ (by simpa using ha),
        List.find?_cons_of_pos _ (by simpa using ha)]
    · rw [List.filter_cons_of_neg (by simpa using ha),
        List.find?_cons_of_neg _ (by simpa using ha), ih]

theorem find?_filter_other (l : List (String × List Cell)) (a c : String) (h : c ≠ a) :
    (l.filter (fun p => p.1 = a)).find? (fun p => p.1 = c) = none := by
  rw [List.find?_eq_none]
  intro x hx
  have hxa := (List.mem_filter.mp hx).2
  simp only [decide_eq_true_eq] at hxa
  simp only [decide_eq_true_eq]
  intro hxc
  exact h (hxc.symm.trans hxa)

theorem select_find?_none (df : DF) (cs : List String) (c : String)
    (h : df.data.find? (fun p => p.1 = c) = none) :
    (df.select cs).data.find? (fun p => p.1 = c) = none := by
  rw [List.find?_eq_none]
  intro x hx
  obtain ⟨c', _, hxf⟩ := List.mem_flatMap.mp hx
  have hxmem := (List.mem_filter.mp hxf).1
  simp only [decide_eq_true_eq]
  intro hxc
  have := List.find?_eq_none.mp h x hxmem
  simp only [decide_eq_true_eq] at this
  exact this hxc

theorem colVals_select_of_mem (df : DF) (cs : List String) (c : String) (h : c ∈ cs) :
    (df.select cs).colVals c = df.colVals c := by
  induction cs with
  | nil => simp at h
  | cons a cs ih =>
    show colValsData
      ((a :: cs).flatMap (fun c' => df.data.filter (fun p => p.1 = c'))) c = df.colVals c
    rw [List.flatMap_cons]
    unfold colValsData
    rw [List.find?_append]
    by_cases hac : c = a
    · subst hac
      rw [find?_filter_same]
      cases hf : df.data.find? (fun p => p.1 = c) with
      | some p =>
        show p.2 = df.colVals c
        unfold DF.colVals colValsData
        rw [hf]
      | none =>
        have hrest : (cs.flatMap (fun c' => df.data.filter (fun p => p.1 = c'))).find?
            (fun p => p.1 = c) = none := select_find?_none df cs c hf
        rw [hrest]
        show [] = df.colVals c
        unfold DF.colVals colValsData
        rw [hf]
    · rw [find?_filter_other df.data a c hac]
      rcases List.mem_cons.mp h with h1 | h1
      · exact absurd h1 hac
      · exact ih h1

theorem filter_eq_replicate_count (ns : List String) (c : String) :
    ns.filter (fun n => n = c) = List.replicate (ns.count c) c := by
  induction ns with
  | nil => rfl
  | cons a ns ih =>
    by_cases hac : a = c
    · subst hac
      rw [List.filter_cons_of_pos (by simp), List.count_cons_self, ih,
        List.replicate_succ]
    · rw [List.filter_cons_of_neg (by simpa using hac),
        List.count_cons_of_ne (fun e => hac e.symm), ih]

theorem select_names_of_unique (df : DF) (cs : List String)
    (h : ∀ c ∈ cs, df.colNames.count c = 1) : (df.select cs).colNames = cs := by
  induction cs with
  | nil => rfl
  | cons a cs ih =>
    show ((a :: cs).flatMap (fun c => df.data.filter (fun p => p.1 = c))).map
      (fun p => p.1) = a :: cs
    rw [List.flatMap_cons, List.map_append]
    have hone : (df.data.filter (fun p => p.1 = a)).map (fun p => p.1) = [a] := by
      have e1 : (df.data.filter (fun p => p.1 = a)).map (fun p => p.1) =
          df.colNames.filter (fun n => n = a) := by
        show _ = (df.data.map (fun p => p.1)).filter (fun n => decide (n = a))
        rw [List.filter_map]
        rfl
      rw [e1, filter_eq_replicate_count, h a (List.mem_cons_self a cs)]
      rfl
    have hrest : (cs.flatMap (fun c => df.data.filter (fun p => p.1 = c))).map
        (fun p => p.1) = cs :=
      ih (fun c hc => h c (List.mem_cons_of_mem a hc))
    rw [hone, hrest]
    rfl

/-! ## Fold-preservation lemmas -/

theorem foldl_preserve {α β : Type} (P : α → Prop) (f : α → β → α) (l : List β) (a : α)
    (hstep : ∀ x b, P x → P (f x b)) (ha : P a) : P (l.foldl f a) := by
  induction l generalizing a with
  | nil => exact ha
  | cons b l ih => exact ih (f a b) (hstep a b ha)

theorem ensureFold_preserve (cs : List String) (df : DF) (c : String)
    (h : df.hasCol c = true) :
    (cs.foldl ensureStep df).colVals c = df.colVals c ∧
      (cs.foldl ensureStep df).hasCol c = true ∧
      (cs.foldl ensureStep df).nrows = df.nrows := by
  induction cs generalizing df with
  | nil => exact ⟨rfl, h, rfl⟩
  | cons a cs ih =>
    rw [List.foldl_cons]
    by_cases ha : df.hasCol a = true
    · rw [show ensureStep df a = df from by unfold ensureStep; rw [if_pos ha]]
      exact ih df h
    · have hstep : ensureStep df a = df.setCol a (List.replicate df.nrows (Cell.str "")) := by
        unfold ensureStep
        rw [if_neg ha]
      have hca : c ≠ a := fun e => ha (e ▸ h)
      have h1 : (ensureStep df a).hasCol c = true := by
        rw [hstep, hasCol_setCol, h, Bool.true_or]
      obtain ⟨v1, v2, v3⟩ := ih (ensureStep df a) h1
      refine ⟨?_, v2, ?_⟩
      · rw [v1, hstep, colVals_setCol_ne df c a _ hca]
      · rw [v3, hstep, nrows_setCol]

theorem ensureFold_default (cs : List String) (df : DF) (c : String)
    (hc : c ∈ cs) (h : df.hasCol c = false) :
    (cs.foldl ensureStep df).colVals c = List.replicate df.nrows (Cell.str "") := by
  induction cs generalizing df with
  | nil => simp at hc
  | cons a cs ih =>
    rw [List.foldl_cons]
    by_cases hac : c = a
    · subst hac
      have hstep : ensureStep df c = df.setCol c (List.replicate df.nrows (Cell.str "")) := by
        unfold ensureStep
        rw [if_neg (by rw [h]; exact Bool.false_ne_true)]
      have h1 : (ensureStep df c).hasCol c = true := by
        rw [hstep, hasCol_setCol]
        simp
      obtain ⟨v1, _, _⟩ := ensureFold_preserve cs (ensureStep df c) c h1
      rw [v1, hstep, colVals_setCol_self]
    · have hc' : c ∈ cs := by
        rcases List.mem_cons.mp hc with h1 | h1
        · exact absurd h1 hac
        · exact h1
      by_cases ha : df.hasCol a = true
      · rw [show ensureStep df a = df from by unfold ensureStep; rw [if_pos ha]]
        exact ih df hc' h
      · have hstep : ensureStep df a = df.setCol a (List.replicate df.nrows (Cell.str "")) := by
          unfold ensureStep
          rw [if_neg ha]
        have h1 : (ensureStep df a).hasCol c = false := by
          rw [hstep, hasCol_setCol, h, Bool.false_or, decide_eq_false hac]
        have := ih (ensureStep df a) hc' h1
        rw [this, hstep, nrows_setCol]

/-- Columns not in the name list are untouched by the constant-column
fold. -/
theorem setConstFold_preserve (ns : List String) (v : String → Cell) (c : String)
    (hnotin : c ∉ ns) (d : DF) :
    (ns.foldl (fun d c' => d.setCol c' (List.replicate d.nrows (v c'))) d).colVals c =
        d.colVals c ∧
      (ns.foldl (fun d c' => d.setCol c' (List.replicate d.nrows (v c'))) d).hasCol c =
        d.hasCol c ∧
      (ns.foldl (fun d c' => d.setCol c' (List.replicate d.nrows (v c'))) d).nrows = d.nrows := by
  induction ns generalizing d with
  | nil => exact ⟨rfl, rfl, rfl⟩
  | cons b ns ih =>
    have hcb : c ≠ b := fun e => hnotin (e ▸ List.mem_cons_self b ns)
    have hnotin' : c ∉ ns := fun hmem => hnotin (List.mem_cons_of_mem b hmem)
    rw [List.foldl_cons]
    obtain ⟨w1, w2, w3⟩ := ih hnotin' (d.setCol b (List.replicate d.nrows (v b)))
    refine ⟨?_, ?_, ?_⟩
    · rw [w1, colVals_setCol_ne d c b _ hcb]
    · rw [w2, hasCol_setCol, decide_eq_false hcb, Bool.or_false]
    · rw [w3, nrows_setCol]

/-- The constant-column fold used for the sender fields: for a list of
distinct names, each named column ends up as the broadcast value. -/
theorem setConstFold_facts (ns : List String) (v : String → Cell) (df : DF) (c : String)
    (hc : c ∈ ns) (hnd : ns.Nodup) :
    (ns.foldl (fun d c' => d.setCol c' (List.replicate d.nrows (v c'))) df).colVals c =
        List.replicate df.nrows (v c) ∧
      (ns.foldl (fun d c' => d.setCol c' (List.replicate d.nrows (v c'))) df).hasCol c = true ∧
      (ns.foldl (fun d c' => d.setCol c' (List.replicate d.nrows (v c'))) df).nrows = df.nrows := by
  induction ns generalizing df with
  | nil => simp at hc
  | cons a ns ih =>
    rw [List.foldl_cons]
    have hnrows : (df.setCol a (List.replicate df.nrows (v a))).nrows = df.nrows :=
      nrows_setCol df a _
    by_cases hac : c = a
    · subst hac
      have hnotin : c ∉ ns := (List.nodup_cons.mp hnd).1
      obtain ⟨w1, w2, w3⟩ := setConstFold_preserve ns v c hnotin
        (df.setCol c (List.replicate df.nrows (v c)))
      refine ⟨?_, ?_, ?_⟩
      · rw [w1, colVals_setCol_self]
      · rw [w2, hasCol_setCol]
        simp
      · rw [w3, nrows_setCol]
    · have hc' : c ∈ ns := by
        rcases List.mem_cons.mp hc with h1 | h1
        · exact absurd h1 hac
        · exact h1
      obtain ⟨w1, w2, w3⟩ := ih (df.setCol a (List.replicate df.nrows (v a))) hc'
        (List.nodup_cons.mp hnd).2
      refine ⟨?_, w2, ?_⟩
      · rw [w1, hnrows]
      · rw [w3, hnrows]

/-! ## Per-file processing lemmas -/

theorem colNames_setCol_not_hasCol (df : DF) (c : String) (vs : List Cell)
    (h : df.hasCol c = false) :
    (df.setCol c vs).colNames = df.colNames ++ [c] := by
  show (setColData df.data c vs).map (fun p => p.1) = df.data.map (fun p => p.1) ++ [c]
  unfold setColData
  rw [if_neg (show ¬ hasColData df.data c = true from by
    rw [show hasColData df.data c = false from h]
    exact Bool.false_ne_true)]
  rw [List.map_append]
  rfl

/-- Column assignment never raises the multiplicity of a canonical
label above one: replacement keeps the header list, appending targets
an absent name. -/
theorem setCol_countBound (df : DF) (c0 : String) (vs : List Cell)
    (h : ∀ c ∈ output_columns, df.colNames.count c ≤ 1) :
    ∀ c ∈ output_columns, (df.setCol c0 vs).colNames.count c ≤ 1 := by
  intro c hc
  by_cases hcol : df.hasCol c0 = true
  · rw [colNames_setCol_of_hasCol df c0 vs hcol]
    exact h c hc
  · have hf : df.hasCol c0 = false := by
      simp only [Bool.not_eq_true] at hcol
      exact hcol
    rw [colNames_setCol_not_hasCol df c0 vs hf, List.count_append]
    by_cases hcc : c = c0
    · subst hcc
      have hz : df.colNames.count c = 0 := by
        rw [List.count_eq_zero]
        intro hm
        have hcm := (hasCol_iff df c).mpr hm
        rw [hf] at hcm
        exact Bool.false_ne_true hcm
      rw [hz]
      simp
    · have hz1 : List.count c [c0] = 0 := by
        simp [List.count_singleton, Ne.symm hcc]
      rw [hz1, Nat.add_zero]
      exact h c hc

theorem addressStep_cases (df : DF) :
    (addressStep df).1 = df ∨ ∃ vs, (addressStep df).1 = df.setCol "AddreADD1" vs := by
  simp only [addressStep]
  by_cases ha : (get_matching_columns df.colNames address_columns).isEmpty = true
  · rw [if_pos ha]
    exact Or.inl rfl
  · rw [if_neg ha]
    exact Or.inr ⟨_, rfl⟩

theorem ensureStep_countBound (d : DF) (b : String)
    (h : ∀ c ∈ output_columns, d.colNames.count c ≤ 1) :
    ∀ c ∈ output_columns, (ensureStep d b).colNames.count c ≤ 1 := by
  unfold ensureStep
  by_cases hb : d.hasCol b = true
  · rw [if_pos hb]
    exact h
  · rw [if_neg hb]
    exact setCol_countBound d b _ h

/-- Every canonical column exists after the completion fold. -/
theorem ensureFold_hasCol (cs : List String) (df : DF) (c : String) (hc : c ∈ cs) :
    (cs.foldl ensureStep df).hasCol c = true := by
  induction cs generalizing df with
  | nil => simp at hc
  | cons a cs ih =>
    rw [List.foldl_cons]
    by_cases hac : c = a
    · subst hac
      have h1 : (ensureStep df c).hasCol c = true := by
        unfold ensureStep
        by_cases hd : df.hasCol c = true
        · rw [if_pos hd]
          exact hd
        · rw [if_neg hd, hasCol_setCol]
          simp
      exact (ensureFold_preserve cs (ensureStep df c) c h1).2.1
    · rcases List.mem_cons.mp hc with h1 | h1
      · exact absurd h1 hac
      · exact ih (ensureStep df a) h1

/-- When no canonical label is duplicated among the renamed headers,
the projection at app.py line 302 returns exactly output_columns: every
stage replaces existing columns or appends absent names, the completion
fold makes every canonical column present, and the selection of a label
of multiplicity one contributes exactly one column. -/
theorem processedOutput_colNames (s : DF) (f sh : String) (df0 : DF) (m : List Nat)
    (h : ∀ c ∈ output_columns,
      ((df0.rename (buildMapping df0.colNames)).colNames.count c) ≤ 1) :
    (processedOutput s f sh df0 m).colNames = output_columns := by
  have q2 : ∀ c ∈ output_columns,
      (addressStep (df0.rename (buildMapping df0.colNames))).1.colNames.count c ≤ 1 := by
    rcases addressStep_cases (df0.rename (buildMapping df0.colNames)) with he | ⟨vs, he⟩
    · rw [he]
      exact h
    · rw [he]
      exact setCol_countBound _ _ _ h
  have q3 : ∀ c ∈ output_columns,
      (addSenderInfo s m
        (addressStep (df0.rename (buildMapping df0.colNames))).1).1.colNames.count c ≤ 1 := by
    cases m with
    | nil =>
      exact foldl_preserve (fun d : DF => ∀ c ∈ output_columns, d.colNames.count c ≤ 1)
        _ senderFieldsList _ (fun x b hx => setCol_countBound x b _ hx) q2
    | cons i rest =>
      exact foldl_preserve (fun d : DF => ∀ c ∈ output_columns, d.colNames.count c ≤ 1)
        _ senderFieldsList _ (fun x b hx => setCol_countBound x b _ hx) q2
  have q4 : ∀ c ∈ output_columns,
      (slStep (addSenderInfo s m
        (addressStep (df0.rename (buildMapping df0.colNames))).1).1).colNames.count c ≤ 1 :=
    setCol_countBound _ "SL" _ q3
  have q5 : ∀ c ∈ output_columns,
      (ensureCols (slStep (addSenderInfo s m
        (addressStep (df0.rename (buildMapping df0.colNames))).1).1)).colNames.count c ≤ 1 :=
    foldl_preserve (fun d : DF => ∀ c ∈ output_columns, d.colNames.count c ≤ 1)
      ensureStep output_columns _ (fun x b hx => ensureStep_countBound x b hx) q4
  have q6 : ∀ c ∈ output_columns,
      (metaStep (ensureCols (slStep (addSenderInfo s m
        (addressStep (df0.rename (buildMapping df0.colNames))).1).1))
        f sh).colNames.count c ≤ 1 :=
    setCol_countBound _ "Sheet Name" _ (setCol_countBound _ "Input File Name" _ q5)
  have hhas : ∀ c ∈ output_columns,
      (metaStep (ensureCols (slStep (addSenderInfo s m
        (addressStep (df0.rename (buildMapping df0.colNames))).1).1))
        f sh).hasCol c = true := by
    intro c hc
    have he : (ensureCols (slStep (addSenderInfo s m
        (addressStep (df0.rename (buildMapping df0.colNames))).1).1)).hasCol c = true :=
      ensureFold_hasCol output_columns _ c hc
    unfold metaStep
    rw [hasCol_setCol, hasCol_setCol, he, Bool.true_or, Bool.true_or]
  have hcount : ∀ c ∈ output_columns,
      (metaStep (ensureCols (slStep (addSenderInfo s m
        (addressStep (df0.rename (buildMapping df0.colNames))).1).1))
        f sh).colNames.count c = 1 := by
    intro c hc
    exact Nat.le_antisymm (q6 c hc)
      (List.count_pos_iff.mpr ((hasCol_iff _ c).mp (hhas c hc)))
  unfold processedOutput
  exact select_names_of_unique _ output_columns hcount

/-- Whenever the per-file body returns a processed frame, the file was
readable, the pattern parsed, the sender match was non-empty, and the
frame is the canonical construction over the first matched row. -/
theorem processFile_ok_some (s : DF) (fe : FileEnv) (d : DF)
    (h : (processFile s fe).2 = Except.ok (some d)) :
    ∃ df0 pat, fe.readRes = some df0 ∧
      parseRegex (base_filename fe.filename).data = some pat ∧
      senderMatchedIdx s pat ≠ [] ∧
      d = processedOutput s fe.filename (if isExcelName fe.filename then fe.sheet0 else "")
            df0 (senderMatchedIdx s pat) := by
  unfold processFile at h
  cases hr : fe.readRes with
  | none =>
    rw [hr] at h
    simp at h
  | some df0 =>
    rw [hr] at h
    simp only at h
    by_cases h0 : s.nrows = 0
    · rw [if_pos h0] at h
      simp at h
    · rw [if_neg h0] at h
      by_cases hfc : s.hasCol "File Name Contain" = true
      · simp only [hfc, Bool.not_true, Bool.false_eq_true, if_false] at h
        cases hp : parseRegex (base_filename fe.filename).data with
        | none =>
          rw [hp] at h
          simp at h
        | some pat =>
          rw [hp] at h
          simp only at h
          by_cases hm : (senderMatchedIdx s pat).isEmpty = true
          · rw [if_pos hm] at h
            simp at h
          · rw [if_neg hm] at h
            simp only [Except.ok.injEq, Option.some.injEq] at h
            refine ⟨df0, pat, rfl, rfl, ?_, ?_⟩
            · intro hnil
              exact hm (by rw [hnil]; rfl)
            · exact h.symm
      · simp only [Bool.not_eq_true] at hfc
        simp only [hfc, Bool.not_false, if_true] at h
        simp at h

theorem senderField_names (c : String) (hc : c ∈ senderFieldsList) :
    c ≠ "SL" ∧ c ≠ "Input File Name" ∧ c ≠ "Sheet Name" ∧ c ∈ output_columns := by
  fin_cases hc <;> exact ⟨by decide, by decide, by decide, by decide⟩

/-- In a processed frame built from a non-empty match, every sender
field column is the broadcast of the first matched sender row's value. -/
theorem processedOutput_senderVals (s : DF) (f sh : String) (df0 : DF) (i : Nat)
    (rest : List Nat) (c : String) (hc : c ∈ senderFieldsList) :
    (processedOutput s f sh df0 (i :: rest)).colVals c =
      List.replicate (processedOutput s f sh df0 (i :: rest)).nrows (senderGet s i c) := by
  obtain ⟨h1, h2, h3, h4⟩ := senderField_names c hc
  obtain ⟨v1, v2, v3⟩ := setConstFold_facts senderFieldsList (fun c' => senderGet s i c')
    (addressStep ((df0.rename (buildMapping df0.colNames)))).1 c hc (by decide)
  have hadd : (addSenderInfo s (i :: rest)
      (addressStep ((df0.rename (buildMapping df0.colNames)))).1).1 =
      senderFieldsList.foldl (fun d c' => d.setCol c' (List.replicate d.nrows (senderGet s i c')))
        (addressStep ((df0.rename (buildMapping df0.colNames)))).1 := rfl
  have hslv : (slStep (addSenderInfo s (i :: rest)
      (addressStep ((df0.rename (buildMapping df0.colNames)))).1).1).colVals c =
      List.replicate (addressStep ((df0.rename (buildMapping df0.colNames)))).1.nrows
        (senderGet s i c) := by
    unfold slStep
    rw [colVals_setCol_ne _ c "SL" _ h1, hadd, v1]
  have hslh : (slStep (addSenderInfo s (i :: rest)
      (addressStep ((df0.rename (buildMapping df0.colNames)))).1).1).hasCol c = true := by
    unfold slStep
    rw [hasCol_setCol, hadd, v2, Bool.true_or]
  obtain ⟨e1, e2, e3⟩ := ensureFold_preserve output_columns
    (slStep (addSenderInfo s (i :: rest)
      (addressStep ((df0.rename (buildMapping df0.colNames)))).1).1) c hslh
  have hens : (ensureCols (slStep (addSenderInfo s (i :: rest)
      (addressStep ((df0.rename (buildMapping df0.colNames)))).1).1)).colVals c =
      List.replicate (addressStep ((df0.rename (buildMapping df0.colNames)))).1.nrows
        (senderGet s i c) := by
    unfold ensureCols
    rw [e1, hslv]
  have hmeta : (metaStep (ensureCols (slStep (addSenderInfo s (i :: rest)
      (addressStep ((df0.rename (buildMapping df0.colNames)))).1).1)) f sh).colVals c =
      List.replicate (addressStep ((df0.rename (buildMapping df0.colNames)))).1.nrows
        (senderGet s i c) := by
    unfold metaStep
    rw [colVals_setCol_ne _ c "Sheet Name" _ h3, colVals_setCol_ne _ c "Input File Name" _ h2,
      hens]
  have hval : (processedOutput s f sh df0 (i :: rest)).colVals c =
      List.replicate (addressStep ((df0.rename (buildMapping df0.colNames)))).1.nrows
        (senderGet s i c) := by
    unfold processedOutput
    rw [colVals_select_of_mem _ output_columns c h4, hmeta]
  have hnr : (processedOutput s f sh df0 (i :: rest)).nrows =
      (addressStep ((df0.rename (buildMapping df0.colNames)))).1.nrows := by
    unfold processedOutput
    rw [nrows_select]
    unfold metaStep
    rw [nrows_setCol, nrows_setCol]
    unfold ensureCols
    rw [e3]
    unfold slStep
    rw [nrows_setCol, hadd, v3]
  rw [hval, hnr]

/-! ## Merge-level lemmas -/

theorem range_map_getD {α β : Type} (l : List α) (dflt : α) (f : α → β) :
    (List.range l.length).map (fun j => f (l.getD j dflt)) = l.map f := by
  induction l with
  | nil => rfl
  | cons a l ih =>
    rw [show (a :: l).length = l.length + 1 from rfl, List.range_succ_eq_map,
      List.map_cons, List.map_map]
    have hfg : ((fun j => f ((a :: l).getD j dflt)) ∘ Nat.succ) =
        (fun j => f (l.getD j dflt)) := by
      funext j
      simp [Function.comp, List.getD_cons_succ]
    rw [hfg, ih]
    rfl

theorem colNames_concatDFs (d : DF) (tl : List DF) :
    (concatDFs (d :: tl)).colNames = d.colNames := by
  show ((List.range d.data.length).map
      (fun j => ((d.data.getD j ("", [])).1,
        (d :: tl).flatMap (fun e => (e.data.getD j ("", [])).2)))).map (fun p => p.1) =
    d.data.map (fun p => p.1)
  rw [List.map_map]
  exact range_map_getD d.data ("", []) (fun p => p.1)

theorem pinLoopStep_preserve (df : DF) (x : DF × Nat) (b : Nat)
    (hx : x.1.colNames = df.colNames ∧ x.1.hasCol "AddrePincode" = true) :
    (pinLoopStep x b).1.colNames = df.colNames ∧
      (pinLoopStep x b).1.hasCol "AddrePincode" = true := by
  simp only [pinLoopStep]
  by_cases ht : cellTruthy (x.1.cellAt "AddrePincode" b) = true
  · rw [if_pos ht]
    exact hx
  · rw [if_neg ht]
    by_cases hp : backfillPinRow x.1 b ≠ ""
    · rw [if_pos hp]
      constructor
      · rw [colNames_setAt _ _ _ _ hx.2]
        exact hx.1
      · show (x.1.setAt "AddrePincode" b (Cell.str (backfillPinRow x.1 b))).hasCol
          "AddrePincode" = true
        rw [hasCol_setAt, hx.2, Bool.true_or]
    · rw [if_neg hp]
      exact hx

theorem pincodePass_colNames (df : DF) (h : df.hasCol "AddrePincode" = true) :
    (pincodePass df).2.colNames = df.colNames := by
  unfold pincodePass
  rw [if_pos h]
  simp only
  have base : (df.setCol "AddrePincode"
      ((df.colVals "AddrePincode").map
        (fun c => Cell.str (clean_pincode (Cell.str (cellStr (fillna c))))))).colNames =
      df.colNames := colNames_setCol_of_hasCol df _ _ h
  have hbase2 : (df.setCol "AddrePincode"
      ((df.colVals "AddrePincode").map
        (fun c => Cell.str (clean_pincode (Cell.str (cellStr (fillna c))))))).hasCol
      "AddrePincode" = true := by
    rw [hasCol_setCol, h, Bool.true_or]
  exact (foldl_preserve
    (fun a : DF × Nat => a.1.colNames = df.colNames ∧ a.1.hasCol "AddrePincode" = true)
    pinLoopStep (List.range _) _
    (fun x b hx => pinLoopStep_preserve df x b hx) ⟨base, hbase2⟩).1

theorem cityLoopStep_preserve (pr : List (String × String)) (df : DF)
    (x : DF × Nat × List LogEv) (b : Nat)
    (hx : x.1.colNames = df.colNames ∧ x.1.hasCol "AddreCity" = true) :
    (cityLoopStep pr x b).1.colNames = df.colNames ∧
      (cityLoopStep pr x b).1.hasCol "AddreCity" = true := by
  simp only [cityLoopStep]
  by_cases hc : ((!cellTruthy (x.1.cellAt "AddreCity" b) ||
      x.1.cellAt "AddreCity" b = Cell.str "") &&
      cellTruthy (x.1.cellAt "AddrePincode" b)) = true
  · rw [if_pos hc]
    cases hl : lookupCity pr (cellStr (x.1.cellAt "AddrePincode" b)) with
    | none => exact hx
    | some cty =>
      simp only
      constructor
      · rw [colNames_setAt _ _ _ _ hx.2]
        exact hx.1
      · show (x.1.setAt "AddreCity" b (Cell.str cty)).hasCol "AddreCity" = true
        rw [hasCol_setAt, hx.2, Bool.true_or]
  · rw [if_neg hc]
    exact hx

theorem cityPass_colNames (pr : List (String × String)) (df1 : DF)
    (h : df1.hasCol "AddreCity" = true) :
    (cityPass pr df1).2.colNames = df1.colNames := by
  unfold cityPass
  rw [if_pos h]
  simp only
  have base : (df1.setCol "AddreCity"
      ((df1.colVals "AddreCity").map
        (fun c => Cell.str (pyStrip (cellStr (fillna c)))))).colNames = df1.colNames :=
    colNames_setCol_of_hasCol df1 _ _ h
  have hbase2 : (df1.setCol "AddreCity"
      ((df1.colVals "AddreCity").map
        (fun c => Cell.str (pyStrip (cellStr (fillna c)))))).hasCol "AddreCity" = true := by
    rw [hasCol_setCol, h, Bool.true_or]
  exact (foldl_preserve
    (fun a : DF × Nat × List LogEv => a.1.colNames = df1.colNames ∧ a.1.hasCol "AddreCity" = true)
    (cityLoopStep pr) (List.range _) _
    (fun x b hx => cityLoopStep_preserve pr df1 x b hx) ⟨base, hbase2⟩).1

theorem backfill_colNames (df : DF) (pr : List (String × String))
    (h1 : df.hasCol "AddrePincode" = true) (h2 : df.hasCol "AddreCity" = true) :
    (process_pincodes_and_cities df pr).2.colNames = df.colNames := by
  show (cityPass pr (pincodePass df).2).2.colNames = df.colNames
  have e1 := pincodePass_colNames df h1
  have h2' : (pincodePass df).2.hasCol "AddreCity" = true := by
    rw [hasCol_iff, e1]
    exact (hasCol_iff df "AddreCity").mp h2
  rw [cityPass_colNames pr _ h2', e1]

/-- Every frame in the fold's accumulator was already there or was
appended by the per-file body of some of the folded files. -/
theorem mergeFold_dfs_from (s : DF) (fes : List FileEnv) (acc : MergeAcc) :
    ∀ d ∈ (fes.foldl (mergeStep s) acc).dfs,
      d ∈ acc.dfs ∨ ∃ fe ∈ fes, (processFile s fe).2 = Except.ok (some d) := by
  induction fes generalizing acc with
  | nil => exact fun d hd => Or.inl hd
  | cons fe fes ih =>
    intro d hd
    rw [List.foldl_cons] at hd
    rcases ih (mergeStep s acc fe) d hd with hin | ⟨fe', hfe', hps⟩
    · simp only [mergeStep] at hin
      cases hps2 : (processFile s fe).2 with
      | error e =>
        rw [hps2] at hin
        exact Or.inl hin
      | ok o =>
        cases o with
        | none =>
          rw [hps2] at hin
          exact Or.inl hin
        | some d' =>
          rw [hps2] at hin
          simp only at hin
          rcases List.mem_append.mp hin with hd1 | hd1
          · exact Or.inl hd1
          · have hdd : d = d' := by simpa using hd1
            subst hdd
            exact Or.inr ⟨fe, List.mem_cons_self fe fes, hps2⟩
    · exact Or.inr ⟨fe', List.mem_cons_of_mem fe hfe', hps⟩

/-- Whenever a run writes an artifact, the artifact is the backfill pass
applied to the concatenation of the per-file contributions, each of
which was produced by the per-file body of some directory entry. -/
theorem merge_out_shape (env : RunEnv) (o : DF)
    (h : (merge_customer_files env).out = some o) :
    ∃ dfs, dfs ≠ [] ∧
      (∀ d ∈ dfs, ∃ fe ∈ env.dirEntries,
        (processFile (loadSender env.senderRaw).2 fe).2 = Except.ok (some d)) ∧
      o = (process_pincodes_and_cities (concatDFs dfs) (load_pin_database env.pinRaw).2).2 := by
  unfold merge_customer_files at h
  simp only at h
  by_cases hpin : (load_pin_database env.pinRaw).2.isEmpty = true
  · rw [if_pos hpin] at h
    simp at h
  · rw [if_neg hpin] at h
    by_cases hdir : (!env.inputDirFound) = true
    · rw [if_pos hdir] at h
      simp at h
    · rw [if_neg hdir] at h
      by_cases hdfs : ((env.dirEntries.filter (fun fe => hasInputExt fe.filename)).foldl
          (mergeStep (loadSender env.senderRaw).2)
          { logs := [LogEv.pathsInfo] ++ (load_pin_database env.pinRaw).1 ++
              (loadSender env.senderRaw).1 ++
              [LogEv.foundFiles
                (env.dirEntries.filter (fun fe => hasInputExt fe.filename)).length],
            dfs := [], processed := 0, errors := 0 }).dfs.isEmpty = true
      · rw [if_pos hdfs] at h
        simp at h
      · rw [if_neg hdfs] at h
        simp only [Option.some.injEq] at h
        refine ⟨_, by simpa using hdfs, ?_, h.symm⟩
        intro d hd
        rcases mergeFold_dfs_from (loadSender env.senderRaw).2
            (env.dirEntries.filter (fun fe => hasInputExt fe.filename)) _ d hd with
          hin | ⟨fe, hfe, hps⟩
        · simp at hin
        · exact ⟨fe, (List.mem_filter.mp hfe).1, hps⟩

/-! ## Shape lemmas for the pincode normalizer -/

theorem isPySpace_not_digit (c : Char) (h : isPySpace c = true) : Char.isDigit c = false := by
  simp only [isPySpace, Bool.or_eq_true, decide_eq_true_eq] at h
  rcases h with ((((h | h) | h) | h) | h) | h <;> subst h <;> decide

theorem digit_ne_space (c : Char) (h : Char.isDigit c = true) : c ≠ ' ' := by
  intro e
  subst e
  exact absurd h (by decide)

theorem digit_ne_hyphen (c : Char) (h : Char.isDigit c = true) : c ≠ '-' := by
  intro e
  subst e
  exact absurd h (by decide)

theorem filter_dropWhile (p q : Char → Bool) (l : List Char)
    (hpq : ∀ c, q c = true → p c = false) :
    (l.dropWhile q).filter p = l.filter p := by
  induction l with
  | nil => rfl
  | cons a l ih =>
    by_cases hq : q a = true
    · rw [List.dropWhile_cons, if_pos hq, ih, List.filter_cons, hpq a hq]
      simp
    · rw [List.dropWhile_cons, if_neg hq]

theorem filter_digits_strip (cs : List Char) :
    (pyStripList cs).filter Char.isDigit = cs.filter Char.isDigit := by
  unfold pyStripList
  rw [List.filter_reverse, filter_dropWhile _ _ _ isPySpace_not_digit, List.filter_reverse,
    List.reverse_reverse, filter_dropWhile _ _ _ isPySpace_not_digit]

theorem clean_pincode_str (s : String) :
    clean_pincode (Cell.str s) =
      if (s.data.filter Char.isDigit).length = 6 then (s.data.filter Char.isDigit).asString
      else "" := by
  show (if (((pyStripList s.data).filter Char.isDigit).length = 6) then
      ((pyStripList s.data).filter Char.isDigit).asString else "") = _
  rw [filter_digits_strip]

theorem clean_shape (x : Cell) :
    clean_pincode x = "" ∨
      ((clean_pincode x).data.length = 6 ∧ (clean_pincode x).data.all Char.isDigit = true) := by
  unfold clean_pincode
  by_cases hna : cellIsNa x = true
  · rw [if_pos hna]
    exact Or.inl rfl
  · rw [if_neg hna]
    simp only
    by_cases hlen : ((pyStripList (cellStr x).data).filter Char.isDigit).length = 6
    · rw [if_pos hlen]
      refine Or.inr ⟨hlen, ?_⟩
      rw [List.all_eq_true]
      intro c hc
      exact (List.mem_filter.mp hc).2
    · rw [if_neg hlen]
      exact Or.inl rfl

theorem search6_shape (cs : List Char) :
    ∀ pw m, search6 pw cs = some m → m.length = 6 ∧ m.all Char.isDigit = true := by
  induction cs with
  | nil => intro pw m h; simp [search6] at h
  | cons c cs ih =>
    intro pw m h
    unfold search6 at h
    by_cases hs : stand6Here pw (c :: cs) = true
    · rw [if_pos hs] at h
      have hm : m = (c :: cs).take 6 := (Option.some.inj h).symm
      subst hm
      simp only [stand6Here, Bool.and_eq_true, digitRun] at hs
      exact ⟨by simpa using hs.1.2.1, hs.1.2.2⟩
    · rw [if_neg hs] at h
      exact ih (isWordChar c) m h

theorem sepHere_shape (pw : Bool) (l : List Char) (m : List Char)
    (h : sepHere pw l = some m) :
    (m.length = 6 ∧ m.all Char.isDigit = true) ∨
      ∃ m1 s m2, m = m1 ++ s :: m2 ∧ m1.length = 3 ∧ m2.length = 3 ∧
        m1.all Char.isDigit = true ∧ m2.all Char.isDigit = true ∧
        (isPySpace s || s = '-') = true := by
  unfold sepHere at h
  by_cases hpw : pw = true
  · rw [if_pos hpw] at h
    exact absurd h (by simp)
  · rw [if_neg hpw] at h
    by_cases h3 : digitRun l 3 = true
    · rw [if_pos h3] at h
      cases hd : l.drop 3 with
      | nil =>
        rw [hd] at h
        exact absurd h (by simp)
      | cons s rest =>
        rw [hd] at h
        simp only at h
        by_cases hsep : ((isPySpace s || s = '-') && digitRun rest 3 && tailBoundary rest 3) = true
        · rw [if_pos hsep] at h
          have hm : m = l.take 3 ++ s :: rest.take 3 := (Option.some.inj h).symm
          simp only [Bool.and_eq_true, digitRun] at hsep h3
          refine Or.inr ⟨l.take 3, s, rest.take 3, hm, by simpa using h3.1, ?_, h3.2, ?_, ?_⟩
          · simpa using hsep.1.2.1
          · exact hsep.1.2.2
          · exact hsep.1.1
        · rw [if_neg hsep] at h
          by_cases h6 : (digitRun l 6 && tailBoundary l 6) = true
          · rw [if_pos h6] at h
            have hm : m = l.take 6 := (Option.some.inj h).symm
            subst hm
            simp only [Bool.and_eq_true, digitRun] at h6
            exact Or.inl ⟨by simpa using h6.1.1, h6.1.2⟩
          · rw [if_neg h6] at h
            exact absurd h (by simp)
    · rw [if_neg h3] at h
      exact absurd h (by simp)

theorem searchSep_shape (cs : List Char) :
    ∀ pw m, searchSep pw cs = some m →
      (m.length = 6 ∧ m.all Char.isDigit = true) ∨
        ∃ m1 s m2, m = m1 ++ s :: m2 ∧ m1.length = 3 ∧ m2.length = 3 ∧
          m1.all Char.isDigit = true ∧ m2.all Char.isDigit = true ∧
          (isPySpace s || s = '-') = true := by
  induction cs with
  | nil => intro pw m h; simp [searchSep] at h
  | cons c cs ih =>
    intro pw m h
    unfold searchSep at h
    cases hh : sepHere pw (c :: cs) with
    | some m' =>
      rw [hh] at h
      have : m' = m := Option.some.inj h
      subst this
      exact sepHere_shape pw (c :: cs) m' hh
    | none =>
      rw [hh] at h
      exact ih (isWordChar c) m h

theorem filter_all_digits (m : List Char) (h : m.all Char.isDigit = true) :
    (m.filter (fun c => c ≠ ' ')).filter (fun c => c ≠ '-') = m := by
  have h1 : m.filter (fun c => c ≠ ' ') = m := by
    rw [List.filter_eq_self]
    intro a ha
    simpa using digit_ne_space a (by rw [List.all_eq_true] at h; exact h a ha)
  rw [h1, List.filter_eq_self]
  intro a ha
  simpa using digit_ne_hyphen a (by rw [List.all_eq_true] at h; exact h a ha)

theorem extract_result_shape (t : Cell) : pincodeShape (extract_pincode_from_text t) := by
  unfold extract_pincode_from_text
  by_cases hna : cellIsNa t = true
  · rw [if_pos hna]
    exact Or.inl rfl
  · rw [if_neg hna]
    simp only
    cases h6 : search6 false (cellStr t).data with
    | some m =>
      obtain ⟨hl, hd⟩ := search6_shape (cellStr t).data false m h6
      exact Or.inr (Or.inl ⟨hl, hd⟩)
    | none =>
      cases hsep : searchSep false (cellStr t).data with
      | some m =>
        rcases searchSep_shape (cellStr t).data false m hsep with ⟨hl, hd⟩ | hform
        · refine Or.inr (Or.inl ⟨?_, ?_⟩)
          · show ((m.filter (fun c => c ≠ ' ')).filter (fun c => c ≠ '-')).length = 6
            rw [filter_all_digits m hd]
            exact hl
          · show ((m.filter (fun c => c ≠ ' ')).filter (fun c => c ≠ '-')).all
              Char.isDigit = true
            rw [filter_all_digits m hd]
            exact hd
        · obtain ⟨m1, s, m2, hm, hl1, hl2, hd1, hd2, hs⟩ := hform
          subst hm
          have hall1 : m1.filter (fun c => c ≠ ' ') = m1 := by
            rw [List.filter_eq_self]
            intro a ha
            simpa using digit_ne_space a (by rw [List.all_eq_true] at hd1; exact hd1 a ha)
          have hall2 : m2.filter (fun c => c ≠ ' ') = m2 := by
            rw [List.filter_eq_self]
            intro a ha
            simpa using digit_ne_space a (by rw [List.all_eq_true] at hd2; exact hd2 a ha)
          have hall1h : m1.filter (fun c => c ≠ '-') = m1 := by
            rw [List.filter_eq_self]
            intro a ha
            simpa using digit_ne_hyphen a (by rw [List.all_eq_true] at hd1; exact hd1 a ha)
          have hall2h : m2.filter (fun c => c ≠ '-') = m2 := by
            rw [List.filter_eq_self]
            intro a ha
            simpa using digit_ne_hyphen a (by rw [List.all_eq_true] at hd2; exact hd2 a ha)
          by_cases hsp : s = ' '
          · subst hsp
            have key : ((m1 ++ ' ' :: m2).filter (fun c => c ≠ ' ')).filter
                (fun c => c ≠ '-') = m1 ++ m2 := by
              rw [List.filter_append, hall1, List.filter_cons_of_neg (by decide), hall2,
                List.filter_append, hall1h, hall2h]
            refine Or.inr (Or.inl ⟨?_, ?_⟩)
            · show (((m1 ++ ' ' :: m2).filter (fun c => c ≠ ' ')).filter
                (fun c => c ≠ '-')).length = 6
              rw [key]
              simp [hl1, hl2]
            · show (((m1 ++ ' ' :: m2).filter (fun c => c ≠ ' ')).filter
                (fun c => c ≠ '-')).all Char.isDigit = true
              rw [key, List.all_append, Bool.and_eq_true]
              exact ⟨hd1, hd2⟩
          · by_cases hhy : s = '-'
            · subst hhy
              have key : ((m1 ++ '-' :: m2).filter (fun c => c ≠ ' ')).filter
                  (fun c => c ≠ '-') = m1 ++ m2 := by
                rw [List.filter_append, hall1, List.filter_cons_of_pos (by decide), hall2,
                  List.filter_append, hall1h, List.filter_cons_of_neg (by decide), hall2h]
              refine Or.inr (Or.inl ⟨?_, ?_⟩)
              · show (((m1 ++ '-' :: m2).filter (fun c => c ≠ ' ')).filter
                  (fun c => c ≠ '-')).length = 6
                rw [key]
                simp [hl1, hl2]
              · show (((m1 ++ '-' :: m2).filter (fun c => c ≠ ' ')).filter
                  (fun c => c ≠ '-')).all Char.isDigit = true
                rw [key, List.all_append, Bool.and_eq_true]
                exact ⟨hd1, hd2⟩
            · have key : ((m1 ++ s :: m2).filter (fun c => c ≠ ' ')).filter
                  (fun c => c ≠ '-') = m1 ++ s :: m2 := by
                rw [List.filter_append, hall1,
                  List.filter_cons_of_pos (by simpa using hsp), hall2,
                  List.filter_append, hall1h,
                  List.filter_cons_of_pos (by simpa using hhy), hall2h]
              refine Or.inr (Or.inr ⟨m1, s, m2, ?_, hl1, hl2, hd1, hd2, ?_, hsp, hhy⟩)
              · show ((m1 ++ s :: m2).filter (fun c => c ≠ ' ')).filter
                  (fun c => c ≠ '-') = m1 ++ s :: m2
                exact key
              · rw [Bool.or_eq_true] at hs
                rcases hs with h | h
                · exact h
                · exact absurd (by simpa using h) hhy
      | none => exact Or.inl rfl

theorem backfillPinRow_cases (df : DF) (i : Nat) :
    backfillPinRow df i = "" ∨
      ∃ c, backfillPinRow df i = extract_pincode_from_text (df.cellAt c i) := by
  unfold backfillPinRow
  cases hl : (["AddreADD1", "Addre_ADD2", "Addre_ADD3"].filterMap
      (fun c =>
        if df.hasCol c then
          let p := extract_pincode_from_text (df.cellAt c i)
          if p ≠ "" then some p else none
        else none)) with
  | nil => exact Or.inl rfl
  | cons x xs =>
    right
    have hx : x ∈ (["AddreADD1", "Addre_ADD2", "Addre_ADD3"].filterMap
        (fun c =>
          if df.hasCol c then
            let p := extract_pincode_from_text (df.cellAt c i)
            if p ≠ "" then some p else none
          else none)) := by
      rw [hl]
      exact List.mem_cons_self x xs
    obtain ⟨a, _, ha⟩ := List.mem_filterMap.mp hx
    refine ⟨a, ?_⟩
    simp only [List.headD_cons]
    by_cases hca : df.hasCol a = true
    · rw [if_pos hca] at ha
      simp only at ha
      by_cases hp : extract_pincode_from_text (df.cellAt a i) ≠ ""
      · rw [if_pos hp] at ha
        exact (Option.some.inj ha).symm
      · rw [if_neg hp] at ha
        exact absurd ha (by simp)
    · rw [if_neg hca] at ha
      exact absurd ha (by simp)

theorem clean_cellPinShape (x : Cell) : cellPinShape (Cell.str (clean_pincode x)) := by
  refine ⟨clean_pincode x, rfl, ?_⟩
  rcases clean_shape x with h | h
  · exact Or.inl h
  · exact Or.inr (Or.inl h)

theorem extract_cellPinShape (t : Cell) :
    cellPinShape (Cell.str (extract_pincode_from_text t)) :=
  ⟨extract_pincode_from_text t, rfl, extract_result_shape t⟩

theorem pinLoopStep_shape (x : DF × Nat) (b : Nat)
    (hx : ∀ v ∈ x.1.colVals "AddrePincode", cellPinShape v) :
    ∀ v ∈ (pinLoopStep x b).1.colVals "AddrePincode", cellPinShape v := by
  simp only [pinLoopStep]
  by_cases ht : cellTruthy (x.1.cellAt "AddrePincode" b) = true
  · rw [if_pos ht]
    exact hx
  · rw [if_neg ht]
    by_cases hp : backfillPinRow x.1 b ≠ ""
    · rw [if_pos hp]
      intro v hv
      have hv' : v ∈ (x.1.colVals "AddrePincode").set b (Cell.str (backfillPinRow x.1 b)) := by
        have e := colVals_setAt_self x.1 "AddrePincode" b (Cell.str (backfillPinRow x.1 b))
        exact e ▸ hv
      rcases List.mem_or_eq_of_mem_set hv' with hv2 | hv2
      · exact hx v hv2
      · subst hv2
        rcases backfillPinRow_cases x.1 b with hb | ⟨c, hb⟩
        · exact absurd hb hp
        · rw [hb]
          exact extract_cellPinShape _
    · rw [if_neg hp]
      exact hx

theorem pincodePass_shape (df : DF) :
    ∀ v ∈ (pincodePass df).2.colVals "AddrePincode", cellPinShape v := by
  unfold pincodePass
  by_cases h : df.hasCol "AddrePincode" = true
  · rw [if_pos h]
    simp only
    have base : ∀ v ∈ (df.setCol "AddrePincode"
        ((df.colVals "AddrePincode").map
          (fun c => Cell.str (clean_pincode (Cell.str (cellStr (fillna c))))))).colVals
        "AddrePincode", cellPinShape v := by
      rw [colVals_setCol_self]
      intro v hv
      obtain ⟨c, _, hvc⟩ := List.mem_map.mp hv
      rw [← hvc]
      exact clean_cellPinShape _
    exact foldl_preserve (fun a : DF × Nat => ∀ v ∈ a.1.colVals "AddrePincode", cellPinShape v)
      pinLoopStep (List.range _) _ (fun x b hx => pinLoopStep_shape x b hx) base
  · rw [if_neg h]
    simp only
    rw [colVals_setCol_self]
    intro v hv
    have : v = Cell.str "" := List.eq_of_mem_replicate hv
    subst this
    exact ⟨"", rfl, Or.inl rfl⟩

theorem cityLoopStep_pincol (pr : List (String × String)) (x : DF × Nat × List LogEv)
    (b : Nat) :
    (cityLoopStep pr x b).1.colVals "AddrePincode" = x.1.colVals "AddrePincode" := by
  simp only [cityLoopStep]
  by_cases hc : ((!cellTruthy (x.1.cellAt "AddreCity" b) ||
      x.1.cellAt "AddreCity" b = Cell.str "") &&
      cellTruthy (x.1.cellAt "AddrePincode" b)) = true
  · rw [if_pos hc]
    cases hl : lookupCity pr (cellStr (x.1.cellAt "AddrePincode" b)) with
    | none => rfl
    | some cty =>
      simp only
      exact colVals_setAt_ne x.1 "AddrePincode" "AddreCity" b (Cell.str cty) (by decide)
  · rw [if_neg hc]

theorem cityPass_pincol (pr : List (String × String)) (df1 : DF) :
    (cityPass pr df1).2.colVals "AddrePincode" = df1.colVals "AddrePincode" := by
  unfold cityPass
  by_cases h : df1.hasCol "AddreCity" = true
  · rw [if_pos h]
    simp only
    have base : (df1.setCol "AddreCity"
        ((df1.colVals "AddreCity").map
          (fun c => Cell.str (pyStrip (cellStr (fillna c)))))).colVals "AddrePincode" =
        df1.colVals "AddrePincode" :=
      colVals_setCol_ne df1 "AddrePincode" "AddreCity" _ (by decide)
    exact foldl_preserve
      (fun a : DF × Nat × List LogEv =>
        a.1.colVals "AddrePincode" = df1.colVals "AddrePincode")
      (cityLoopStep pr) (List.range _) _
      (fun x b hx => (cityLoopStep_pincol pr x b).trans hx) base
  · rw [if_neg h]
    simp only
    exact colVals_setCol_ne df1 "AddrePincode" "AddreCity" _ (by decide)

/-- Every AddrePincode value produced by the backfill pass has pincode
shape. -/
theorem backfill_pincode_shape (df : DF) (pr : List (String × String)) :
    ∀ v ∈ (process_pincodes_and_cities df pr).2.colVals "AddrePincode", cellPinShape v := by
  show ∀ v ∈ (cityPass pr (pincodePass df).2).2.colVals "AddrePincode", cellPinShape v
  rw [cityPass_pincol]
  exact pincodePass_shape df

/-! ## Positional characterization of the regex scans -/

theorem prevWordAt_zero (pw : Bool) (cs : List Char) : prevWordAt pw cs 0 = pw := by
  unfold prevWordAt
  simp

theorem prevWordAt_succ (pw : Bool) (c : Char) (cs : List Char) (i : Nat) :
    prevWordAt pw (c :: cs) (i + 1) = prevWordAt (isWordChar c) cs i := by
  unfold prevWordAt
  cases i with
  | zero => simp
  | succ k => simp

/-- A left-to-right scan that applies a positional matcher and falls
through to the next position equals the matcher applied at the first
position where it succeeds. -/
theorem scan_eq_positions (here : Bool → List Char → Option (List Char))
    (scan : Bool → List Char → Option (List Char))
    (hnil : ∀ pw, scan pw [] = none)
    (hcons : ∀ pw c cs, scan pw (c :: cs) =
      match here pw (c :: cs) with
      | some m => some m
      | none => scan (isWordChar c) cs) :
    ∀ (cs : List Char) (pw : Bool),
      scan pw cs = ((List.range cs.length).find?
          (fun i => (here (prevWordAt pw cs i) (cs.drop i)).isSome)).bind
        (fun i => here (prevWordAt pw cs i) (cs.drop i)) := by
  intro cs
  induction cs with
  | nil =>
    intro pw
    simp [hnil]
  | cons c cs ih =>
    intro pw
    rw [hcons]
    rw [show (c :: cs).length = cs.length + 1 from rfl, List.range_succ_eq_map]
    cases hh : here pw (c :: cs) with
    | some m =>
      have h0 : ((here (prevWordAt pw (c :: cs) 0) ((c :: cs).drop 0)).isSome) = true := by
        rw [prevWordAt_zero, List.drop_zero, hh]
        rfl
      rw [@List.find?_cons_of_pos _
        (fun i => (here (prevWordAt pw (c :: cs) i) ((c :: cs).drop i)).isSome) 0
        (List.map Nat.succ (List.range cs.length)) h0]
      rw [Option.some_bind, prevWordAt_zero, List.drop_zero, hh]
    | none =>
      have h0 : ¬((here (prevWordAt pw (c :: cs) 0) ((c :: cs).drop 0)).isSome) = true := by
        rw [prevWordAt_zero, List.drop_zero, hh]
        simp
      rw [@List.find?_cons_of_neg _
        (fun i => (here (prevWordAt pw (c :: cs) i) ((c :: cs).drop i)).isSome) 0
        (List.map Nat.succ (List.range cs.length)) (by simpa using h0), List.find?_map]
      have hfg : ((fun i => (here (prevWordAt pw (c :: cs) i) ((c :: cs).drop i)).isSome) ∘
          Nat.succ) =
          (fun i => (here (prevWordAt (isWordChar c) cs i) (cs.drop i)).isSome) := by
        funext i
        simp only [Function.comp]
        rw [prevWordAt_succ]
        rfl
      rw [hfg, ih (isWordChar c)]
      cases hfind : (List.range cs.length).find?
          (fun i => (here (prevWordAt (isWordChar c) cs i) (cs.drop i)).isSome) with
      | none => rfl
      | some j =>
        rw [Option.map_some', Option.some_bind, Option.some_bind, prevWordAt_succ]
        rfl

theorem search6_cons (pw : Bool) (c : Char) (cs : List Char) :
    search6 pw (c :: cs) =
      match (if stand6Here pw (c :: cs) then some ((c :: cs).take 6) else none) with
      | some m => some m
      | none => search6 (isWordChar c) cs := by
  by_cases h : stand6Here pw (c :: cs) = true
  · rw [show search6 pw (c :: cs) =
        (if stand6Here pw (c :: cs) then some ((c :: cs).take 6)
         else search6 (isWordChar c) cs) from rfl]
    rw [if_pos h, if_pos h]
  · rw [show search6 pw (c :: cs) =
        (if stand6Here pw (c :: cs) then some ((c :: cs).take 6)
         else search6 (isWordChar c) cs) from rfl]
    rw [if_neg h, if_neg h]

/-- search6 finds the least standalone-match position. -/
theorem search6_positions (cs : List Char) (pw : Bool) :
    search6 pw cs = (firstStand6Idx pw cs).bind
      (fun i => if stand6Here (prevWordAt pw cs i) (cs.drop i)
                then some ((cs.drop i).take 6) else none) := by
  have h := scan_eq_positions
    (fun pw l => if stand6Here pw l then some (l.take 6) else none) search6
    (fun _ => rfl) (fun pw c cs => search6_cons pw c cs) cs pw
  rw [h]
  unfold firstStand6Idx
  have hpred : (fun i => ((fun pw l => if stand6Here pw l then some (l.take 6) else none)
      (prevWordAt pw cs i) (cs.drop i)).isSome) =
      (fun i => stand6Here (prevWordAt pw cs i) (cs.drop i)) := by
    funext i
    simp only
    by_cases hs : stand6Here (prevWordAt pw cs i) (cs.drop i) = true
    · rw [if_pos hs, hs]
      rfl
    · rw [if_neg hs]
      simp only [Option.isSome_none]
      exact (Bool.not_eq_true _).mp hs |>.symm ▸ rfl
  rw [hpred]

/-- searchSep finds the least separated-match position. -/
theorem searchSep_positions (cs : List Char) (pw : Bool) :
    searchSep pw cs = (firstSepIdx pw cs).bind
      (fun i => sepHere (prevWordAt pw cs i) (cs.drop i)) := by
  have h := scan_eq_positions sepHere searchSep (fun _ => rfl) (fun _ _ _ => rfl) cs pw
  rw [h]
  rfl

/-- The extraction function equals its positional characterization. -/
theorem extract_eq_positions (t : Cell) :
    extract_pincode_from_text t = extractByPositions t := by
  unfold extract_pincode_from_text extractByPositions
  by_cases hna : cellIsNa t = true
  · rw [if_pos hna, if_pos hna]
  · rw [if_neg hna, if_neg hna]
    simp only
    rw [search6_positions (cellStr t).data false]
    cases hfi : firstStand6Idx false (cellStr t).data with
    | some i =>
      have hpred : stand6Here (prevWordAt false (cellStr t).data i)
          ((cellStr t).data.drop i) = true := by
        unfold firstStand6Idx at hfi
        have := @List.find?_some _
          (fun i => stand6Here (prevWordAt false (cellStr t).data i)
            ((cellStr t).data.drop i)) _ _ hfi
        exact this
      rw [Option.some_bind, if_pos hpred]
    | none =>
      rw [Option.none_bind]
      rw [searchSep_positions (cellStr t).data false]
      cases hfs : firstSepIdx false (cellStr t).data with
      | some i =>
        rw [Option.some_bind]
      | none =>
        rw [Option.none_bind]

/-! ## Claim theorems -/

set_option maxRecDepth 100000 in
/-- C1 counterexample: a run that writes an artifact produces 26
columns, not the 25 the specification's data model enumerates
(SENDERMOBILE is missing from the latter); and a file whose headers
AddreName and Name both end up on the canonical AddreName label (Name
is an alias of AddreName, which is not its own alias) writes 27
columns, AddreName appearing twice, so even the 26-column schema does
not hold unconditionally. -/
theorem C1_counterexample :
    ((merge_customer_files envCat).out.map DF.colNames) = some output_columns ∧
      output_columns.length = 26 ∧ spec25Columns.length = 25 ∧
      output_columns ≠ spec25Columns ∧
      ((merge_customer_files envDup).out.map (fun d => d.colNames.length)) = some 27 ∧
      ((merge_customer_files envDup).out.map (fun d => d.colNames.count "AddreName")) =
        some 2 :=
  ⟨by decide, by decide, by decide, by decide, by decide, by decide⟩

/-- A contributed frame carries the canonical schema whenever the
contributing file's renamed headers duplicate no canonical label. -/
theorem processFile_cols_of_dupFree (s : DF) (fe : FileEnv) (d : DF)
    (hps : (processFile s fe).2 = Except.ok (some d))
    (hdf : renameDupFree fe = true) :
    d.colNames = output_columns := by
  obtain ⟨df0, pat, hr, hp, hne, hd⟩ := processFile_ok_some s fe d hps
  have hcount : ∀ c ∈ output_columns,
      ((df0.rename (buildMapping df0.colNames)).colNames.count c) ≤ 1 := by
    unfold renameDupFree at hdf
    rw [hr] at hdf
    simp only at hdf
    intro c hc
    have := List.all_eq_true.mp hdf c hc
    simpa using this
  rw [hd]
  exact processedOutput_colNames s fe.filename _ df0 _ hcount

/-- C1 (amended): a run all of whose input files keep every canonical
label unduplicated after renaming writes exactly the 26 canonical
columns of output_columns, in that fixed order (the spec's 25 plus
SENDERMOBILE between ADDRMOBILE and Weight) — a duplicate-creating
rename instead widens the written schema, as the counterexample
shows — and every canonical column absent before the completion step
is defaulted to the empty string on every row. -/
theorem C1_theorem :
    (∀ env : RunEnv, (∀ fe ∈ env.dirEntries, renameDupFree fe = true) →
        ((merge_customer_files env).out.map DF.colNames).getD output_columns =
          output_columns) ∧
      (∀ df : DF, ∀ c ∈ output_columns, df.hasCol c = false →
        (ensureCols df).colVals c = List.replicate df.nrows (Cell.str "")) := by
  constructor
  · intro env hdup
    cases ho : (merge_customer_files env).out with
    | none => rfl
    | some o =>
      obtain ⟨dfs, hne, hprov, ho2⟩ := merge_out_shape env o ho
      simp only [Option.map_some', Option.getD_some]
      have hcols : ∀ d ∈ dfs, d.colNames = output_columns := by
        intro d hd
        obtain ⟨fe, hfe, hps⟩ := hprov d hd
        exact processFile_cols_of_dupFree _ fe d hps (hdup fe hfe)
      cases dfs with
      | nil => exact absurd rfl hne
      | cons d tl =>
        have hdc : d.colNames = output_columns := hcols d (List.mem_cons_self d tl)
        have hcc : (concatDFs (d :: tl)).colNames = output_columns := by
          rw [colNames_concatDFs, hdc]
        have h1 : (concatDFs (d :: tl)).hasCol "AddrePincode" = true := by
          rw [hasCol_iff, hcc]
          decide
        have h2 : (concatDFs (d :: tl)).hasCol "AddreCity" = true := by
          rw [hasCol_iff, hcc]
          decide
        rw [ho2, backfill_colNames _ _ h1 h2, hcc]
  · intro df c hc hfalse
    exact ensureFold_default output_columns df c hc hfalse

set_option maxRecDepth 100000 in
/-- C1 witness: the duplicate-freedom hypothesis and the amended schema
fact evaluated on a concrete run, and the empty-string default
evaluated on a concrete frame lacking the Weight column. -/
theorem C1_witness :
    (∀ fe ∈ envCat.dirEntries, renameDupFree fe = true) ∧
      ((merge_customer_files envCat).out.map DF.colNames).getD output_columns =
        output_columns ∧
      (ensureCols dfAddr).colVals "Weight" = List.replicate dfAddr.nrows (Cell.str "") :=
  ⟨by decide, C1_theorem.1 envCat (by decide),
    C1_theorem.2 dfAddr "Weight" (by decide) (by decide)⟩

set_option maxRecDepth 100000 in
/-- C2 counterexample: the truncated name of AB*-1.xlsx is the pattern
AB*, which no sender key contains as a substring, yet the single sender
row (key CAT) regex-matches it, so the file's one row reaches the
written output: the claim's no-substring condition holds while the
contribution is non-zero. -/
theorem C2_counterexample :
    containsCI (base_filename "AB*-1.xlsx") "CAT" = false ∧
      senderDFex.cellAt "File Name Contain" 0 = Cell.str "CAT" ∧
      ((merge_customer_files envStar).out.map DF.nrows) = some 1 ∧
      ((merge_customer_files envStar).out.map (fun d => d.cellAt "Input File Name" 0)) =
        some (Cell.str "AB*-1.xlsx") :=
  ⟨by decide, by decide, by decide, by decide⟩

theorem processFile_logged (s : DF) (fe : FileEnv) :
    ∃ tl, (processFile s fe).1 = LogEv.processingFile fe.filename :: tl := by
  unfold processFile
  cases hr : fe.readRes with
  | none => exact ⟨_, rfl⟩
  | some df0 =>
    simp only
    by_cases h0 : s.nrows = 0
    · rw [if_pos h0]
      exact ⟨_, rfl⟩
    · rw [if_neg h0]
      by_cases hfc : (!s.hasCol "File Name Contain") = true
      · rw [if_pos hfc]
        exact ⟨_, rfl⟩
      · rw [if_neg hfc]
        cases hp : parseRegex (base_filename fe.filename).data with
        | none => exact ⟨_, rfl⟩
        | some pat =>
          simp only
          by_cases hm : (senderMatchedIdx s pat).isEmpty = true
          · rw [if_pos hm]
            exact ⟨_, rfl⟩
          · rw [if_neg hm]
            exact ⟨_, rfl⟩

theorem isPlainChar_split (c : Char) (h : isPlainChar c = true) :
    isRegexSpecial c = false ∧ c ≠ '.' := by
  unfold isPlainChar at h
  simp only [Bool.not_eq_true', Bool.or_eq_false_iff, decide_eq_false_iff_not] at h
  exact h

theorem isQuant_eq_false_of_not_special (c : Char) (h : isRegexSpecial c = false) :
    isQuant c = false := by
  by_cases h1 : c = '*'
  · subst h1
    exact absurd h (by decide)
  · by_cases h2 : c = '+'
    · subst h2
      exact absurd h (by decide)
    · by_cases h3 : c = '?'
      · subst h3
        exact absurd h (by decide)
      · unfold isQuant
        rw [decide_eq_false h1, decide_eq_false h2, decide_eq_false h3]
        rfl

/-- A metacharacter-free pattern parses to its literal token list. -/
theorem parse_plain (cs : List Char) (h : cs.all isPlainChar = true) :
    parseRegex cs = some (cs.map (fun ch => RTok.one (RAtom.lit ch))) := by
  induction cs with
  | nil => rfl
  | cons c cs ih =>
    have hc := isPlainChar_split c (List.all_eq_true.mp h c (List.mem_cons_self c cs))
    have hcs : cs.all isPlainChar = true := by
      rw [List.all_eq_true]
      intro x hx
      exact List.all_eq_true.mp h x (List.mem_cons_of_mem c hx)
    have hatom : atomOf c = RAtom.lit c := by
      unfold atomOf
      rw [if_neg hc.2]
    cases cs with
    | nil =>
      show parseRegex [c] = some [RTok.one (RAtom.lit c)]
      unfold parseRegex
      rw [if_neg (by rw [hc.1]; exact Bool.false_ne_true), hatom]
    | cons c2 cs2 =>
      have hc2 := isPlainChar_split c2
        (List.all_eq_true.mp hcs c2 (List.mem_cons_self c2 cs2))
      show parseRegex (c :: c2 :: cs2) = _
      unfold parseRegex
      rw [if_neg (by rw [hc.1]; exact Bool.false_ne_true),
        if_neg (by rw [isQuant_eq_false_of_not_special c2 hc2.1]; exact Bool.false_ne_true),
        ih hcs, Option.map_some', hatom]
      rfl

/-- A literal token list matches a prefix exactly when the lowered
needle is a prefix of the lowered text. -/
theorem matchHere_lits (cs : List Char) :
    ∀ text : List Char,
      matchHere (cs.map (fun ch => RTok.one (RAtom.lit ch))) text =
        isPrefixCh (cs.map Char.toLower) (text.map Char.toLower) := by
  induction cs with
  | nil => intro text; rfl
  | cons c cs ih =>
    intro text
    cases text with
    | nil => rfl
    | cons t ts =>
      show (atomMatch (RAtom.lit c) t &&
          matchHere (cs.map (fun ch => RTok.one (RAtom.lit ch))) ts) = _
      rw [ih ts]
      rfl

theorem isPrefixCh_nil (ns : List Char) : isPrefixCh ns [] = ns.isEmpty := by
  cases ns with
  | nil => rfl
  | cons a as => rfl

/-- re.search of a literal pattern is case-insensitive substring
search. -/
theorem reSearch_lits (key : String) (text : List Char) :
    reSearch (litToks key) text =
      containsCh (key.data.map Char.toLower) (text.map Char.toLower) := by
  induction text with
  | nil =>
    show matchHere (litToks key) [] = _
    unfold litToks
    rw [matchHere_lits key.data [], List.map_nil, isPrefixCh_nil]
    rfl
  | cons t ts ih =>
    show (matchHere (litToks key) (t :: ts) || reSearch (litToks key) ts) = _
    unfold litToks
    rw [matchHere_lits key.data (t :: ts)]
    unfold litToks at ih
    rw [ih]
    rfl

/-- str.contains with a literal pattern coincides with case-insensitive
substring containment on every cell. -/
theorem strContainsRe_lits (key : String) (v : Cell) :
    strContainsRe (litToks key) v = cellContainsCI key v := by
  cases v with
  | na => rfl
  | str s =>
    show reSearch (litToks key) s.data = containsCI key s
    rw [reSearch_lits]
    rfl
  | int n =>
    show reSearch (litToks key) (toString n).data = containsCI key (cellStr (Cell.int n))
    rw [reSearch_lits]
    rfl

theorem processFile_noPlainMatch (s : DF) (fe : FileEnv)
    (hplain : isPlainKey (base_filename fe.filename) = true)
    (hsub : ∀ i ∈ List.range s.nrows,
      cellContainsCI (base_filename fe.filename) (s.cellAt "File Name Contain" i) = false) :
    (processFile s fe).2 = Except.error () ∨ (processFile s fe).2 = Except.ok none := by
  unfold processFile
  cases hr : fe.readRes with
  | none => exact Or.inl rfl
  | some df0 =>
    simp only
    by_cases h0 : s.nrows = 0
    · rw [if_pos h0]
      exact Or.inr rfl
    · rw [if_neg h0]
      by_cases hfc : (!s.hasCol "File Name Contain") = true
      · rw [if_pos hfc]
        exact Or.inl rfl
      · rw [if_neg hfc]
        rw [parse_plain (base_filename fe.filename).data hplain]
        simp only
        have hm : senderMatchedIdx s
            ((base_filename fe.filename).data.map (fun ch => RTok.one (RAtom.lit ch))) = [] := by
          unfold senderMatchedIdx
          rw [List.filter_eq_nil_iff]
          intro i hi
          rw [show ((base_filename fe.filename).data.map (fun ch => RTok.one (RAtom.lit ch))) =
              litToks (base_filename fe.filename) from rfl,
            strContainsRe_lits, hsub i hi]
          exact Bool.false_ne_true
        rw [if_pos (by rw [hm]; rfl)]
        exact Or.inr rfl

/-- C2 (amended): an input file whose truncated filename key is free of
regex metacharacters and is contained, case-insensitively, in no
sender-table 'File Name Contain' value contributes zero rows to the
merged batch, though its processing is logged; for keys with
metacharacters the criterion is regular-expression search (pandas
str.contains default), not substring containment, as the
counterexample's key AB* matching sender value CAT shows. -/
theorem C2_theorem (s : DF) (fe : FileEnv)
    (hplain : isPlainKey (base_filename fe.filename) = true)
    (hsub : ∀ i ∈ List.range s.nrows,
      cellContainsCI (base_filename fe.filename) (s.cellAt "File Name Contain" i) = false) :
    fileContribution s fe = none ∧
      LogEv.processingFile fe.filename ∈ (processFile s fe).1 := by
  constructor
  · unfold fileContribution
    rcases processFile_noPlainMatch s fe hplain hsub with hk | hk <;> rw [hk]
  · obtain ⟨tl, htl⟩ := processFile_logged s fe
    rw [htl]
    exact List.mem_cons_self _ _

/-- C2 witness: the file DOG-1.xlsx against the sender table whose only
key is CAT: DOG is metacharacter-free and no sender value contains it. -/
theorem C2_witness :
    fileContribution senderDFex fileDog = none ∧
      LogEv.processingFile fileDog.filename ∈ (processFile senderDFex fileDog).1 :=
  C2_theorem senderDFex fileDog (by decide) (by decide)

/-- C3 counterexample: with source columns in the order add 2, add 1,
the matched-column collection comes back in alias-list order, not table
order, and the per-row join drops empty parts instead of null-filling
them, so the computed AddreADD1 value X differs from the claim's
table-order null-filled join X-comma. -/
theorem C3_counterexample :
    get_matching_columns dfAddr.colNames address_columns = ["add 1", "add 2"] ∧
      matchAllTableOrder dfAddr.colNames address_columns = ["add 2", "add 1"] ∧
      (["add 1", "add 2"] : List String) ≠ ["add 2", "add 1"] ∧
      (addressStep dfAddr).1.cellAt "AddreADD1" 0 = Cell.str "X" ∧
      joinNullFilled [dfAddr.cellAt "add 2" 0, dfAddr.cellAt "add 1" 0] = "X," ∧
      ("X" : String) ≠ "X," :=
  ⟨by decide, by decide, by decide, by decide, by decide, by decide⟩

/-- C3 (amended): when any address alias matches, AddreADD1 is computed
per row as the comma-space join of the non-empty null-filled values of
the matched columns taken in get_matching_columns order, which groups
matches by alias-list position (table order only within one alias), the
joined string trimmed. -/
theorem C3_theorem (df : DF) (acols : List String)
    (ha : acols = get_matching_columns df.colNames address_columns) (hne : acols ≠ []) :
    (addressStep df).1.colVals "AddreADD1" =
        (List.range df.nrows).map
          (fun i => Cell.str (joinAddressRow (acols.map (fun c => df.cellAt c i)))) ∧
      (addressStep df).1.nrows = df.nrows := by
  subst ha
  unfold addressStep
  rw [if_neg (by rw [List.isEmpty_iff]; exact hne)]
  exact ⟨colVals_setCol_self _ _ _, nrows_setCol _ _ _⟩

/-- C3 witness: the amended join evaluated on the concrete two-column
frame. -/
theorem C3_witness :
    (addressStep dfAddr).1.colVals "AddreADD1" =
        (List.range dfAddr.nrows).map
          (fun i => Cell.str (joinAddressRow
            (["add 1", "add 2"].map (fun c => dfAddr.cellAt c i)))) ∧
      (addressStep dfAddr).1.nrows = dfAddr.nrows :=
  C3_theorem dfAddr ["add 1", "add 2"] (by decide) (by decide)

/-- C4 counterexample: the string 11 0001 contains six digits, so
clean_pincode returns 110001, not the empty string the claim predicts
(the claim's example miscounts the digits as five). -/
theorem C4_counterexample :
    clean_pincode (Cell.str "11 0001") = "110001" ∧ ("110001" : String) ≠ "" :=
  ⟨by decide, by decide⟩

/-- C4 (amended): clean_pincode strips all non-digit characters and
returns the remaining digit string exactly when it has six digits,
returning the empty string otherwise and on missing input; in
particular both 11 0001 and 110-001 clean to 110001 (each has six
digits), and a seven-digit input cleans to the empty string. -/
theorem C4_theorem :
    (∀ s : String, clean_pincode (Cell.str s) =
        if (s.data.filter Char.isDigit).length = 6 then (s.data.filter Char.isDigit).asString
        else "") ∧
      clean_pincode Cell.na = "" ∧
      clean_pincode (Cell.str "11 0001") = "110001" ∧
      clean_pincode (Cell.str "110-001") = "110001" ∧
      clean_pincode (Cell.str "1234567") = "" :=
  ⟨clean_pincode_str, rfl, by decide, by decide, by decide⟩

/-- C5 counterexample: the code's fallback separator class is any
whitespace, and only spaces and hyphens are removed from the match, so
a tab-separated 110-tab-001 extracts to the seven-character string with
the tab retained, while the claim's space-or-hyphen pattern matches
nothing and predicts the empty string. -/
theorem C5_counterexample :
    extract_pincode_from_text (Cell.str "110\t001") = "110\t001" ∧
      extractSpecClaim (Cell.str "110\t001") = "" ∧
      ("110\t001" : String) ≠ "" :=
  ⟨by decide, by decide, by decide⟩

/-- C5 (amended): extraction returns the standalone six-digit run at
the least word-bounded position when one exists, else the least-position
match of three digits, an optional whitespace-or-hyphen separator, and
three digits, with spaces and hyphens (but no other whitespace) removed
from the match, else the empty string; missing input yields the empty
string, and the Delhi example extracts 110001. -/
theorem C5_theorem :
    (∀ t : Cell, extract_pincode_from_text t = extractByPositions t) ∧
      extract_pincode_from_text Cell.na = "" ∧
      extract_pincode_from_text (Cell.str "Address near 110 001 Delhi") = "110001" ∧
      extract_pincode_from_text (Cell.str "No code here 12345") = "" ∧
      extract_pincode_from_text (Cell.str "110\t001") = "110\t001" :=
  ⟨extract_eq_positions, rfl, by decide, by decide, by decide⟩

/-- C6: every surviving reference row has a six-digit pincode (the
cleaned value) and the trimmed uppercased source city, and survival is
stable under permutation of the input rows. -/
theorem C6_theorem :
    (∀ (l : List (Cell × Cell)) (r : String × String), r ∈ pinRowsOfPairs l →
        r.1.length = 6 ∧ r.1.data.all Char.isDigit = true ∧
        ∃ pc ∈ l, r = standardizePair pc) ∧
      (∀ l₁ l₂ : List (Cell × Cell), l₁.Perm l₂ →
        (pinRowsOfPairs l₁).Perm (pinRowsOfPairs l₂)) := by
  constructor
  · intro l r hr
    unfold pinRowsOfPairs at hr
    have hr' := List.mem_filter.mp hr
    obtain ⟨pc, hpc, hmap⟩ := List.mem_map.mp hr'.1
    have hlen : r.1.length = 6 := by simpa using hr'.2
    refine ⟨hlen, ?_, pc, hpc, hmap.symm⟩
    have hfst : r.1 = clean_pincode (Cell.str (cellStr pc.1)) := by
      rw [← hmap]
      rfl
    rcases clean_shape (Cell.str (cellStr pc.1)) with hc | hc
    · rw [hfst, hc] at hlen
      exact absurd hlen (by decide)
    · rw [hfst]
      exact hc.2
  · intro l₁ l₂ hp
    unfold pinRowsOfPairs
    exact (hp.map standardizePair).filter _

/-- C6 witness: a concrete surviving row and a concrete two-row
permutation. -/
theorem C6_witness :
    ((("110001", "DELHI") : String × String).1.length = 6 ∧
        (("110001", "DELHI") : String × String).1.data.all Char.isDigit = true ∧
        ∃ pc ∈ [(Cell.str "110-001", Cell.str " delhi ")],
          (("110001", "DELHI") : String × String) = standardizePair pc) ∧
      (pinRowsOfPairs [(Cell.str "1", Cell.str "A"), (Cell.str "110001", Cell.str "B")]).Perm
        (pinRowsOfPairs [(Cell.str "110001", Cell.str "B"), (Cell.str "1", Cell.str "A")]) :=
  ⟨C6_theorem.1 [(Cell.str "110-001", Cell.str " delhi ")] ("110001", "DELHI") (by decide),
   C6_theorem.2 _ _ (by decide)⟩

/-- C7: the backfill's pincode lookup returns the city of the first
physical occurrence of the pincode; on the duplicate table MUMBAI then
DELHI for 100000 it yields MUMBAI, also through the full backfill
pass. -/
theorem C7_theorem :
    (∀ (pre rest : List (String × String)) (p c : String), (∀ r ∈ pre, r.1 ≠ p) →
        lookupCity (pre ++ (p, c) :: rest) p = some c) ∧
      lookupCity dupPinRows "100000" = some "MUMBAI" ∧
      (process_pincodes_and_cities dfDupLookup dupPinRows).2.cellAt "AddreCity" 0 =
        Cell.str "MUMBAI" := by
  refine ⟨?_, by decide, by decide⟩
  intro pre rest p c hpre
  unfold lookupCity
  induction pre with
  | nil =>
    rw [List.nil_append, List.find?_cons_of_pos _ (by simp)]
    rfl
  | cons a pre ih =>
    have ha : a.1 ≠ p := hpre a (List.mem_cons_self a pre)
    rw [List.cons_append, List.find?_cons_of_neg _ (by simpa using ha)]
    exact ih (fun r hr => hpre r (List.mem_cons_of_mem a hr))

/-- C7 witness: the first-occurrence lemma applied past a non-matching
prefix row. -/
theorem C7_witness :
    lookupCity ([("999999", "X")] ++ ("100000", "MUMBAI") :: [("100000", "DELHI")])
      "100000" = some "MUMBAI" :=
  C7_theorem.1 [("999999", "X")] [("100000", "DELHI")] "100000" "MUMBAI" (by decide)

/-- C8: when the reference table yields no valid rows (unreadable,
misshapen, or filtered empty) the run aborts before writing, and when
it loads but the input directory is missing the run aborts after the
sender-load step; in both cases no artifact is written and the log
trace is exactly the previously emitted lines followed by the abort
line. -/
theorem C8_theorem (env : RunEnv) :
    ((load_pin_database env.pinRaw).2 = [] →
        (merge_customer_files env).out = none ∧
        (merge_customer_files env).logs =
          [LogEv.pathsInfo] ++ (load_pin_database env.pinRaw).1 ++ [LogEv.pinAbort]) ∧
      ((load_pin_database env.pinRaw).2 ≠ [] → env.inputDirFound = false →
        (merge_customer_files env).out = none ∧
        (merge_customer_files env).logs =
          [LogEv.pathsInfo] ++ (load_pin_database env.pinRaw).1 ++
            (loadSender env.senderRaw).1 ++ [LogEv.inputDirMissing]) := by
  constructor
  · intro hpin
    unfold merge_customer_files
    simp only
    rw [if_pos (by rw [List.isEmpty_iff]; exact hpin)]
    exact ⟨rfl, rfl⟩
  · intro hpin hdir
    unfold merge_customer_files
    simp only
    rw [if_neg (fun he => hpin (List.isEmpty_iff.mp he))]
    rw [if_pos (by rw [hdir]; rfl)]
    exact ⟨rfl, rfl⟩

/-- C8 witness: both fatal paths on concrete environments (unreadable
reference workbook; missing input directory). -/
theorem C8_witness :
    ((merge_customer_files envPinFail).out = none ∧
        (merge_customer_files envPinFail).logs =
          [LogEv.pathsInfo] ++ (load_pin_database envPinFail.pinRaw).1 ++ [LogEv.pinAbort]) ∧
      ((merge_customer_files envNoDir).out = none ∧
        (merge_customer_files envNoDir).logs =
          [LogEv.pathsInfo] ++ (load_pin_database envNoDir.pinRaw).1 ++
            (loadSender envNoDir.senderRaw).1 ++ [LogEv.inputDirMissing]) :=
  ⟨(C8_theorem envPinFail).1 (by decide), (C8_theorem envNoDir).2 (by decide) (by decide)⟩

/-- C9: the blank-sender branch is unreachable: whenever the per-file
body appends a frame, the sender match list is non-empty and every
appended row carries the six sender fields copied from the first
matched sender row, never the blank defaults. -/
theorem C9_theorem (s : DF) (fe : FileEnv) :
    match (processFile s fe).2 with
    | Except.ok (some d) =>
      ∃ pat i rest, parseRegex (base_filename fe.filename).data = some pat ∧
        senderMatchedIdx s pat = i :: rest ∧
        ∀ c ∈ senderFieldsList, d.colVals c = List.replicate d.nrows (senderGet s i c)
    | _ => True := by
  cases hps : (processFile s fe).2 with
  | error e => trivial
  | ok o =>
    cases o with
    | none => trivial
    | some d =>
      obtain ⟨df0, pat, hr, hp, hne, hd⟩ := processFile_ok_some s fe d hps
      cases hmatch : senderMatchedIdx s pat with
      | nil => exact absurd hmatch hne
      | cons i rest =>
        refine ⟨pat, i, rest, hp, hmatch, ?_⟩
        intro c hc
        rw [hd, hmatch]
        exact processedOutput_senderVals s fe.filename _ df0 i rest c hc

set_option maxRecDepth 100000 in
/-- C9 witness: the sender-field copy evaluated on the concrete CAT
run. -/
theorem C9_witness :
    match (processFile senderDFex fileCat).2 with
    | Except.ok (some d) =>
      ∃ pat i rest, parseRegex (base_filename fileCat.filename).data = some pat ∧
        senderMatchedIdx senderDFex pat = i :: rest ∧
        ∀ c ∈ senderFieldsList,
          d.colVals c = List.replicate d.nrows (senderGet senderDFex i c)
    | _ => True :=
  C9_theorem senderDFex fileCat

/-- C10 counterexample: a batch whose only address text holds a
newline-separated code backfills AddrePincode with the seven-character
string retaining the newline, which is neither empty nor six digits. -/
theorem C10_counterexample :
    (process_pincodes_and_cities dfNewline [("110001", "DELHI")]).2.cellAt
        "AddrePincode" 0 = Cell.str "110\n001" ∧
      ("110\n001" : String) ≠ "" ∧
      ("110\n001" : String).data.length = 7 ∧
      ("110\n001" : String).data.all Char.isDigit = false :=
  ⟨by decide, by decide, by decide, by decide⟩

/-- C10 (amended): after the backfill pass every AddrePincode value is
the empty string, exactly six digits, or two three-digit groups around
one retained whitespace separator other than space (the tab/newline
case of extraction); the same holds for the written output of every
run. -/
theorem C10_theorem :
    (∀ (df : DF) (pr : List (String × String)) (v : Cell),
        v ∈ (process_pincodes_and_cities df pr).2.colVals "AddrePincode" → cellPinShape v) ∧
      (∀ (env : RunEnv) (o : DF) (v : Cell), (merge_customer_files env).out = some o →
        v ∈ o.colVals "AddrePincode" → cellPinShape v) := by
  constructor
  · intro df pr v hv
    exact backfill_pincode_shape df pr v hv
  · intro env o v ho hv
    obtain ⟨dfs, _, _, ho2⟩ := merge_out_shape env o ho
    rw [ho2] at hv
    exact backfill_pincode_shape _ _ v hv

/-- C10 witness: the shape fact applied to a concrete backfilled
batch. -/
theorem C10_witness : cellPinShape (Cell.str "100000") :=
  C10_theorem.1 dfDupLookup dupPinRows (Cell.str "100000") (by decide)

end App





